import Mathlib

/-!
# Verification of the Tombstone sync core

Shallow embedding of the offline-first sync engine in `src/lib/sync.ts` and
the local mutation/query API in `src/lib/supabase.ts`.

Modelling conventions:
* A Dexie table is a `List Entity` keyed by the `id` field (`tableGet` is
  `Table.get`, `tablePut` is `Table.put`, i.e. insert-or-replace by primary
  key).  Dexie guarantees primary-key uniqueness; theorems that need it take
  a `Nodup` hypothesis on the ids.
* JavaScript `Date.now()` is modelled by explicit `now : Nat` parameters,
  one per call site where the difference is observable.
* `localStorage` (the cursor store) is a `String → Option Nat` map; numbers
  round-trip exactly through `toString`/`parseInt` for the natural numbers
  stored here.
* The active-timer bookkeeping (`db.activeTimers`) is not modelled: no claim
  refers to it and it does not feed back into the sync or query logic below.
-/

namespace Tombstone

/-- `SyncStatus` from `src/types` (`'synced' | 'pending' | 'conflict'`). -/
inductive SyncStatus where
  | synced
  | pending
  | conflict
deriving DecidableEq, Repr, Inhabited

/-- A row of a synced table, the `SyncableEntity` shape of `src/types`:
`id`, `createdAt`, `updatedAt`, `syncStatus`, `_deleted` (here `deleted`).
`childId` is the foreign key carried by all dependent tables, `recordedAt`
is the telemetry timestamp of `owlet_readings`, and `payload` stands for the
remaining domain columns (name, amounts, notes, ...), which sync code copies
around but never inspects. -/
structure Entity where
  id : String
  childId : String
  recordedAt : Nat
  createdAt : Nat
  updatedAt : Nat
  syncStatus : SyncStatus
  deleted : Bool
  payload : Nat
deriving DecidableEq, Repr, Inhabited

/-- `Table.get(key)`: first row whose primary key equals `key`. -/
def tableGet (store : List Entity) (key : String) : Option Entity :=
  store.find? (fun r => r.id == key)

/-- `Table.put(r)`: insert-or-replace by primary key `id`. -/
def tablePut (store : List Entity) (r : Entity) : List Entity :=
  if (tableGet store r.id).isSome then
    store.map (fun x => if x.id == r.id then r else x)
  else
    store ++ [r]

theorem find?_replace (key : String) (r : Entity) (hid : r.id = key) :
    ∀ store : List Entity,
      (store.map (fun x => if x.id == key then r else x)).find? (fun x => x.id == r.id)
        = if (store.find? (fun x => x.id == key)).isSome then some r
          else store.find? (fun x => x.id == r.id) := by
  intro store
  induction store with
  | nil => simp
  | cons x xs ih =>
    by_cases hx : x.id = key
    · simp [List.find?, hx, hid]
    · have hx' : (x.id == key) = false := by simp [hx]
      have hxr : (x.id == r.id) = false := by simp [hid, hx]
      simp only [List.map_cons, List.find?, hx', hxr, Bool.false_eq_true, if_false]
      simpa using ih

theorem find?_append_none {p : Entity → Bool} {l₁ : List Entity}
    (h : l₁.find? p = none) (l₂ : List Entity) :
    (l₁ ++ l₂).find? p = l₂.find? p := by
  induction l₁ with
  | nil => simp
  | cons x xs ih =>
    simp only [List.find?, List.cons_append] at h ⊢
    cases hp : p x with
    | true => simp [hp] at h
    | false =>
      simp only [hp] at h ⊢
      exact ih h

/-- After `put r`, `get r.id` returns `r`. -/
theorem tableGet_tablePut (store : List Entity) (r : Entity) :
    tableGet (tablePut store r) r.id = some r := by
  unfold tablePut
  by_cases h : (tableGet store r.id).isSome
  · rw [if_pos h]
    unfold tableGet at *
    rw [find?_replace r.id r rfl store, if_pos h]
  · rw [if_neg h]
    unfold tableGet at *
    have hn : store.find? (fun x => x.id == r.id) = none := by
      cases hc : store.find? (fun x => x.id == r.id) with
      | none => rfl
      | some v => rw [hc] at h; simp at h
    rw [find?_append_none hn]
    simp [List.find?]

/-! ## Last-Write-Wins merge (sync.ts lines 189–199 and 472–482)

The per-row merge body shared by `pullChanges` (non-fast-forward path) and
`handleRealtimeChange` (INSERT/UPDATE events):

    const local = await localTable.get(remote.id);
    if (!local || remote.updatedAt > local.updatedAt) {
      await localTable.put({ ...remote, syncStatus: 'synced' });
    }
-/

/-- Per-row Last-Write-Wins merge of one fetched remote record. -/
def lwwMerge (store : List Entity) (remote : Entity) : List Entity :=
  match tableGet store remote.id with
  | none => tablePut store { remote with syncStatus := .synced }
  | some localRow =>
    if localRow.updatedAt < remote.updatedAt then
      tablePut store { remote with syncStatus := .synced }
    else
      store

theorem lwwMerge_of_none {store : List Entity} {R : Entity}
    (h : tableGet store R.id = none) :
    lwwMerge store R = tablePut store { R with syncStatus := .synced } := by
  simp only [lwwMerge, h]

theorem lwwMerge_of_lt {store : List Entity} {R L : Entity}
    (h : tableGet store R.id = some L) (hlt : L.updatedAt < R.updatedAt) :
    lwwMerge store R = tablePut store { R with syncStatus := .synced } := by
  simp only [lwwMerge, h]
  rw [if_pos hlt]

theorem lwwMerge_of_ge {store : List Entity} {R L : Entity}
    (h : tableGet store R.id = some L) (hle : R.updatedAt ≤ L.updatedAt) :
    lwwMerge store R = store := by
  simp only [lwwMerge, h]
  rw [if_neg (Nat.not_lt.mpr hle)]

/-- After a merge that overwrites, the store contains the remote record
marked `synced`. -/
theorem lwwMerge_get_overwrite {store : List Entity} {R : Entity}
    (h : lwwMerge store R = tablePut store { R with syncStatus := .synced }) :
    tableGet (lwwMerge store R) R.id = some { R with syncStatus := .synced } := by
  rw [h]
  simpa using tableGet_tablePut store { R with syncStatus := .synced }

/-- One iteration of the merge loop of `pullChanges`, also counting the rows
actually applied (`updated++`). -/
def pullMergeStep (acc : List Entity × Nat) (remote : Entity) : List Entity × Nat :=
  match tableGet acc.1 remote.id with
  | none => (tablePut acc.1 { remote with syncStatus := .synced }, acc.2 + 1)
  | some localRow =>
    if localRow.updatedAt < remote.updatedAt then
      (tablePut acc.1 { remote with syncStatus := .synced }, acc.2 + 1)
    else
      acc

/-- The merge loop of `pullChanges` (`for (const remote of remoteRecords)`),
returning the merged store and the number of rows applied. -/
def pullMergeLoop (store : List Entity) (remoteRecords : List Entity) :
    List Entity × Nat :=
  remoteRecords.foldl pullMergeStep (store, 0)

theorem pullMergeStep_fst (acc : List Entity × Nat) (r : Entity) :
    (pullMergeStep acc r).1 = lwwMerge acc.1 r := by
  unfold pullMergeStep lwwMerge
  cases tableGet acc.1 r.id with
  | none => rfl
  | some localRow =>
    by_cases h : localRow.updatedAt < r.updatedAt
    · simp [h]
    · simp [h]

theorem foldl_pullMergeStep_fst (rs : List Entity) :
    ∀ acc : List Entity × Nat, (rs.foldl pullMergeStep acc).1 = rs.foldl lwwMerge acc.1 := by
  induction rs with
  | nil => intro acc; rfl
  | cons r rest ih =>
    intro acc
    simp only [List.foldl_cons]
    rw [ih (pullMergeStep acc r), pullMergeStep_fst]

/-- The store component of the pull merge loop is the fold of `lwwMerge`. -/
theorem pullMergeLoop_fst (store : List Entity) (rs : List Entity) :
    (pullMergeLoop store rs).1 = rs.foldl lwwMerge store :=
  foldl_pullMergeStep_fst rs (store, 0)

/-- A change-feed event (`{eventType, new?, old?}` payload). -/
inductive RealtimeEvent where
  | insert (record : Entity)
  | update (record : Entity)
  | delete (oldId : String)
deriving DecidableEq, Repr

/-- `handleRealtimeChange` (sync.ts lines 465–490): INSERT/UPDATE apply the
LWW comparison; DELETE removes the row unconditionally. -/
def handleRealtimeChange (store : List Entity) (ev : RealtimeEvent) : List Entity :=
  match ev with
  | .insert record => lwwMerge store record
  | .update record => lwwMerge store record
  | .delete oldId => store.filter (fun x => !(x.id == oldId))

/-- C1: For every table pull and every change-feed insert/update event, the
Last-Write-Wins merge holds: if no local record with the remote record `R`'s
id exists, or the local record `L` has `L.updatedAt < R.updatedAt`, the local
store afterwards contains `R` with `syncStatus = synced`; if
`L.updatedAt ≥ R.updatedAt` the store (hence `L`) is left completely
unchanged.  Both entry points are the same `lwwMerge` step: the change-feed
insert/update path applies it once, the pull loop folds it over the fetched
records. -/
theorem c1_lww_merge (store : List Entity) (R : Entity) :
    (tableGet store R.id = none →
      tableGet (lwwMerge store R) R.id = some { R with syncStatus := .synced }) ∧
    (∀ L, tableGet store R.id = some L → L.updatedAt < R.updatedAt →
      tableGet (lwwMerge store R) R.id = some { R with syncStatus := .synced }) ∧
    (∀ L, tableGet store R.id = some L → R.updatedAt ≤ L.updatedAt →
      lwwMerge store R = store) ∧
    handleRealtimeChange store (.insert R) = lwwMerge store R ∧
    handleRealtimeChange store (.update R) = lwwMerge store R ∧
    (∀ rs, (pullMergeLoop store rs).1 = rs.foldl lwwMerge store) := by
  refine ⟨?_, ?_, ?_, rfl, rfl, fun rs => pullMergeLoop_fst store rs⟩
  · intro hnone
    exact lwwMerge_get_overwrite (lwwMerge_of_none hnone)
  · intro L hL hlt
    exact lwwMerge_get_overwrite (lwwMerge_of_lt hL hlt)
  · intro L hL hle
    exact lwwMerge_of_ge hL hle

/-- Concrete input for the witnesses: a pending local record with
`updatedAt = 100`, and remote versions with `updatedAt = 300` / `50`. -/
def demoLocal : Entity :=
  { id := "x", childId := "c", recordedAt := 0, createdAt := 1, updatedAt := 100,
    syncStatus := .pending, deleted := false, payload := 7 }

def demoRemoteNewer : Entity :=
  { id := "x", childId := "c", recordedAt := 0, createdAt := 1, updatedAt := 300,
    syncStatus := .pending, deleted := false, payload := 9 }

def demoRemoteOlder : Entity :=
  { id := "x", childId := "c", recordedAt := 0, createdAt := 1, updatedAt := 50,
    syncStatus := .pending, deleted := false, payload := 3 }

/-- Witness for `c1_lww_merge`: a strictly newer remote record overwrites the
local one (marked synced); a not-newer remote record leaves the store
untouched. -/
theorem c1_lww_merge_witness :
    tableGet (lwwMerge [demoLocal] demoRemoteNewer) demoRemoteNewer.id
        = some { demoRemoteNewer with syncStatus := .synced } ∧
    lwwMerge [demoLocal] demoRemoteOlder = [demoLocal] := by
  constructor
  · exact (c1_lww_merge [demoLocal] demoRemoteNewer).2.1 demoLocal rfl (by decide)
  · exact (c1_lww_merge [demoLocal] demoRemoteOlder).2.2.1 demoLocal rfl (by decide)

/-- C8: applying the same remote insert/update change twice (once via the
change-feed listener, once via the next pull's merge loop) yields the same
local state as applying it once: the second application is a no-op, because
the merge rule only overwrites when the remote `updatedAt` is strictly
greater than the local one. -/
theorem c8_merge_idempotent (store : List Entity) (R : Entity) :
    lwwMerge (lwwMerge store R) R = lwwMerge store R ∧
    (pullMergeLoop (handleRealtimeChange store (.insert R)) [R]).1
      = handleRealtimeChange store (.insert R) ∧
    (pullMergeLoop (handleRealtimeChange store (.update R)) [R]).1
      = handleRealtimeChange store (.update R) := by
  have key : lwwMerge (lwwMerge store R) R = lwwMerge store R := by
    cases hget : tableGet store R.id with
    | none =>
      have h2 := lwwMerge_get_overwrite (lwwMerge_of_none hget)
      exact lwwMerge_of_ge h2 (Nat.le_refl _)
    | some L =>
      by_cases hlt : L.updatedAt < R.updatedAt
      · have h2 := lwwMerge_get_overwrite (lwwMerge_of_lt hget hlt)
        exact lwwMerge_of_ge h2 (Nat.le_refl _)
      · have h1 := lwwMerge_of_ge hget (Nat.not_lt.mp hlt)
        rw [h1]
        exact lwwMerge_of_ge hget (Nat.not_lt.mp hlt)
  refine ⟨key, ?_, ?_⟩ <;>
    simpa [pullMergeLoop_fst, handleRealtimeChange] using key

/-! ## Cursor store (sync.ts lines 59–84)

`localStorage` keyed by `lastSync_<tableName>`; values round-trip through
`toString`/`parseInt`.  `getLastSyncTime` also removes a too-far-future
cursor, so it returns the (possibly cleaned) storage alongside the value. -/

/-- The browser `localStorage`, restricted to the numeric cursor keys. -/
def CursorStore := String → Option Nat

def lastSyncKey (tableName : String) : String := "lastSync_" ++ tableName

/-- `FUTURE_TOLERANCE_MS = 1000 * 60 * 5` (5 minutes). -/
def FUTURE_TOLERANCE_MS : Nat := 1000 * 60 * 5

/-- `getLastSyncTime` (sync.ts 60–76): parse the stored cursor (0 when
missing); if it is more than 5 minutes in the future, remove it and return 0
to force a full re-pull. -/
def getLastSyncTime (storage : CursorStore) (tableName : String) (now : Nat) :
    Nat × CursorStore :=
  let key := lastSyncKey tableName
  let parsed := (storage key).getD 0
  if now + FUTURE_TOLERANCE_MS < parsed then
    (0, fun k => if k = key then none else storage k)
  else
    (parsed, storage)

/-- `setLastSyncTime` (sync.ts 79–84): never persist a cursor beyond this
device's `now` (`Math.min(time, Date.now())`). -/
def setLastSyncTime (storage : CursorStore) (tableName : String)
    (time now : Nat) : CursorStore :=
  fun k => if k = lastSyncKey tableName then some (min time now) else storage k

/-- C3: the cursor write never persists a value greater than the local
clock's `now` at call time (it stores `min(time, now)`); the cursor read
never returns a value greater than `now + 5min`, and when the stored value
exceeds that tolerance it is discarded (the key is removed) and 0 is
returned. -/
theorem c3_cursor_clamping (storage : CursorStore) (tableName : String)
    (time now : Nat) :
    (∀ v, setLastSyncTime storage tableName time now (lastSyncKey tableName) = some v →
      v ≤ now) ∧
    (getLastSyncTime storage tableName now).1 ≤ now + FUTURE_TOLERANCE_MS ∧
    (∀ v, storage (lastSyncKey tableName) = some v → now + FUTURE_TOLERANCE_MS < v →
      (getLastSyncTime storage tableName now).1 = 0 ∧
      (getLastSyncTime storage tableName now).2 (lastSyncKey tableName) = none) := by
  refine ⟨?_, ?_, ?_⟩
  · intro v hv
    simp only [setLastSyncTime] at hv
    rw [if_pos trivial] at hv
    obtain rfl := Option.some.inj hv
    exact inf_le_right
  · unfold getLastSyncTime
    by_cases h : now + FUTURE_TOLERANCE_MS < (storage (lastSyncKey tableName)).getD 0
    · rw [if_pos h]; exact Nat.zero_le _
    · rw [if_neg h]; exact Nat.not_lt.mp h
  · intro v hv hfut
    have hparsed : (storage (lastSyncKey tableName)).getD 0 = v := by rw [hv]; rfl
    have hcond : now + FUTURE_TOLERANCE_MS < (storage (lastSyncKey tableName)).getD 0 := by
      rw [hparsed]; exact hfut
    constructor
    · unfold getLastSyncTime; rw [if_pos hcond]
    · unfold getLastSyncTime; rw [if_pos hcond]
      simp

/-- A cursor store whose `children` cursor is far in the future. -/
def futureCursorStore : CursorStore :=
  fun k => if k = lastSyncKey "children" then some 10000000 else none

/-- Witness for `c3_cursor_clamping`: writing cursor 999 at `now = 400`
stores a value ≤ 400, and reading a far-future cursor at `now = 0` yields 0
with the key removed. -/
theorem c3_cursor_clamping_witness :
    min 999 400 ≤ 400 ∧
    (getLastSyncTime futureCursorStore "children" 0).1 = 0 ∧
    (getLastSyncTime futureCursorStore "children" 0).2 (lastSyncKey "children") = none := by
  refine ⟨?_, ?_⟩
  · exact (c3_cursor_clamping futureCursorStore "children" 999 400).1 (min 999 400) rfl
  · exact (c3_cursor_clamping futureCursorStore "children" 999 0).2.2 10000000 rfl (by decide)

/-! ## Push engine (sync.ts lines 87–123) -/

/-- Outcome of the remote batch upsert; the remote store is an external
collaborator, so its success or failure is a parameter. -/
inductive RemoteResult where
  | ok
  | fail (message : String)
deriving DecidableEq, Repr

/-- `pushChanges`: select all pending rows; if none, done.  Otherwise upsert
them as one batch keyed by `id`; on error report one error string and touch
nothing; on success mark every pushed id `synced`.  Returns
`(new store, sent batch, count, errors)`. -/
def pushChanges (store : List Entity) (remoteTableName : String)
    (upsertResult : RemoteResult) :
    List Entity × List Entity × Nat × List String :=
  let pendingRecords := store.filter (fun r => r.syncStatus == .pending)
  if pendingRecords.isEmpty then
    (store, pendingRecords, 0, [])
  else
    match upsertResult with
    | .fail msg =>
        (store, pendingRecords, 0,
          ["Push error for " ++ remoteTableName ++ ": " ++ msg])
    | .ok =>
        let ids := pendingRecords.map (fun r => r.id)
        (store.map (fun r =>
            if ids.contains r.id then { r with syncStatus := .synced } else r),
          pendingRecords, pendingRecords.length, [])

/-- In a table with no duplicate primary keys, two rows with the same id are
the same row. -/
theorem eq_of_nodup_ids {l : List Entity}
    (h : (l.map (fun r => r.id)).Nodup) {a b : Entity}
    (ha : a ∈ l) (hb : b ∈ l) (hid : a.id = b.id) : a = b := by
  induction l with
  | nil => cases ha
  | cons x xs ih =>
    rw [List.map_cons, List.nodup_cons] at h
    rcases List.mem_cons.mp ha with ha' | ha' <;>
      rcases List.mem_cons.mp hb with hb' | hb'
    · rw [ha', hb']
    · exfalso
      apply h.1
      rw [← ha', hid]
      exact List.mem_map.mpr ⟨b, hb', rfl⟩
    · exfalso
      apply h.1
      rw [← hb', ← hid]
      exact List.mem_map.mpr ⟨a, ha', rfl⟩
    · exact ih h.2 ha' hb'

/-- C5: the push selects exactly the pending rows and sends them as one
batch; on success every pushed row becomes `synced` and the count equals the
number of pending rows; on failure (with a nonempty batch) no local row is
modified, the count is 0 and exactly the one error string for the table is
surfaced. -/
theorem c5_push (store : List Entity) (tbl msg : String)
    (hnodup : (store.map (fun r => r.id)).Nodup) :
    (∀ res, (pushChanges store tbl res).2.1
        = store.filter (fun r => r.syncStatus == .pending)) ∧
    (pushChanges store tbl .ok).1
        = store.map (fun r =>
            if r.syncStatus == .pending then { r with syncStatus := .synced } else r) ∧
    (pushChanges store tbl .ok).2.2.1
        = (store.filter (fun r => r.syncStatus == .pending)).length ∧
    (pushChanges store tbl .ok).2.2.2 = [] ∧
    (store.filter (fun r => r.syncStatus == .pending) ≠ [] →
      (pushChanges store tbl (.fail msg)).1 = store ∧
      (pushChanges store tbl (.fail msg)).2.2.1 = 0 ∧
      (pushChanges store tbl (.fail msg)).2.2.2
        = ["Push error for " ++ tbl ++ ": " ++ msg]) := by
  by_cases hP : (store.filter (fun r => r.syncStatus == .pending)).isEmpty
  · have hPnil : store.filter (fun r => r.syncStatus == .pending) = [] :=
      List.isEmpty_iff.mp hP
    have hred : ∀ res, pushChanges store tbl res
        = (store, store.filter (fun r => r.syncStatus == .pending), 0, []) := by
      intro res
      unfold pushChanges
      rw [if_pos hP]
    have hmap : store.map (fun r =>
        if r.syncStatus == .pending then { r with syncStatus := .synced } else r)
        = store := by
      have : ∀ r ∈ store, (if r.syncStatus == .pending
          then { r with syncStatus := .synced } else r) = r := by
        intro r hr
        have hnp : (r.syncStatus == .pending) = false := by
          by_contra hc
          have : r ∈ store.filter (fun r => r.syncStatus == .pending) :=
            List.mem_filter.mpr ⟨hr, by simpa using hc⟩
          rw [hPnil] at this
          cases this
        rw [hnp]
        simp
      rw [List.map_congr_left this]
      simp
    refine ⟨fun res => by rw [hred res], ?_, ?_, ?_, ?_⟩
    · rw [hred .ok]; exact hmap.symm
    · rw [hred .ok, hPnil]; rfl
    · rw [hred .ok]
    · intro hne; exact absurd hPnil hne
  · have hred : ∀ res, pushChanges store tbl res
        = match res with
          | .fail m =>
              (store, store.filter (fun r => r.syncStatus == .pending), 0,
                ["Push error for " ++ tbl ++ ": " ++ m])
          | .ok =>
              (store.map (fun r =>
                  if ((store.filter (fun r => r.syncStatus == .pending)).map
                      (fun r => r.id)).contains r.id
                  then { r with syncStatus := .synced } else r),
                store.filter (fun r => r.syncStatus == .pending),
                (store.filter (fun r => r.syncStatus == .pending)).length, []) := by
      intro res
      unfold pushChanges
      rw [if_neg hP]
    have hmap : store.map (fun r =>
          if ((store.filter (fun r => r.syncStatus == .pending)).map
              (fun r => r.id)).contains r.id
          then { r with syncStatus := .synced } else r)
        = store.map (fun r =>
            if r.syncStatus == .pending then { r with syncStatus := .synced } else r) := by
      apply List.map_congr_left
      intro r hr
      by_cases hp : (r.syncStatus == .pending) = true
      · have hmem : r ∈ store.filter (fun r => r.syncStatus == .pending) :=
          List.mem_filter.mpr ⟨hr, hp⟩
        have hin : ((store.filter (fun r => r.syncStatus == .pending)).map
            (fun r => r.id)).contains r.id = true :=
          List.elem_iff.mpr (List.mem_map.mpr ⟨r, hmem, rfl⟩)
        rw [hin, hp]
      · have hnp : (r.syncStatus == .pending) = false := by
          simpa using hp
        have hnin : ((store.filter (fun r => r.syncStatus == .pending)).map
            (fun r => r.id)).contains r.id = false := by
          by_contra hc
          have hct : ((store.filter (fun r => r.syncStatus == .pending)).map
              (fun r => r.id)).contains r.id = true := by
            cases hval : ((store.filter (fun r => r.syncStatus == .pending)).map
                (fun r => r.id)).contains r.id with
            | true => rfl
            | false => exact absurd hval hc
          have hc' : r.id ∈ (store.filter (fun r => r.syncStatus == .pending)).map
              (fun r => r.id) :=
            List.elem_iff.mp hct
          obtain ⟨p, hpmem, hpid⟩ := List.mem_map.mp hc'
          have hpe : p = r :=
            eq_of_nodup_ids hnodup (List.mem_filter.mp hpmem).1 hr hpid
          have : (r.syncStatus == .pending) = true := by
            rw [← hpe]
            exact (List.mem_filter.mp hpmem).2
          rw [this] at hnp
          cases hnp
        rw [hnin, hnp]
    refine ⟨fun res => ?_, ?_, ?_, ?_, fun _ => ?_⟩
    · rw [hred res]; cases res <;> rfl
    · rw [hred .ok]; exact hmap
    · rw [hred .ok]
    · rw [hred .ok]
    · refine ⟨?_, ?_, ?_⟩ <;> rw [hred (.fail msg)]

/-! ## Pull engine (sync.ts lines 126–206)

`pullChanges` takes the remote table contents plus the outcome of the fetch;
`now` is `Date.now()` at line 132 (also used for the `getLastSyncTime` check,
issued microseconds earlier) and `nowW` is `Date.now()` inside the later
`setLastSyncTime` call. -/

def OWLET_FAST_FORWARD_AFTER_MS : Nat := 1000 * 60 * 3

def OWLET_WINDOW_MS : Nat := 1000 * 60 * 60

def BACKSTOP_MS : Nat := 1000 * 60 * 60 * 24 * 30

/-- Ordering of telemetry rows by `recordedAt` (the
`.order('recordedAt', { ascending: true })` clause). -/
def recordedLE (a b : Entity) : Prop := a.recordedAt ≤ b.recordedAt

instance : DecidableRel recordedLE := fun _ _ => Nat.decLe _ _

instance : IsTotal Entity recordedLE := ⟨fun _ _ => Nat.le_total _ _⟩

instance : IsTrans Entity recordedLE := ⟨fun _ _ _ h₁ h₂ => Nat.le_trans h₁ h₂⟩

/-- The fast-forward remote query: rows with
`recordedAt ≥ now − 60min`, ascending by `recordedAt`, capped at 600. -/
def owletWindowQuery (remote : List Entity) (now : Nat) : List Entity :=
  ((remote.filter (fun r => decide (now - OWLET_WINDOW_MS ≤ r.recordedAt))).insertionSort
    recordedLE).take 600

/-- `Math.max(...records.map(r => r.updatedAt))` over a nonempty list. -/
def maxUpdatedAt (rs : List Entity) : Nat :=
  (rs.map (fun r => r.updatedAt)).foldl max 0

/-- `pullChanges`: read the cursor, decide fast-forward for the telemetry
table, build the remote query, then either bulk-apply (fast-forward) or
LWW-merge row by row, finally advancing the cursor to the max `updatedAt`
fetched.  Returns `(new store, new cursor storage, count, errors)`. -/
def pullChanges (storage : CursorStore) (store remote : List Entity)
    (remoteTableName : String) (fetchResult : RemoteResult) (now nowW : Nat) :
    List Entity × CursorStore × Nat × List String :=
  let g := getLastSyncTime storage remoteTableName now
  let lastSync := g.1
  let owletFastForward :=
    (remoteTableName == "owlet_readings") &&
      ((lastSync == 0) || decide (OWLET_FAST_FORWARD_AFTER_MS < now - lastSync))
  let remoteRecords :=
    if owletFastForward then
      owletWindowQuery remote now
    else if 0 < lastSync then
      remote.filter (fun r =>
        decide (lastSync < r.updatedAt) || decide (now - BACKSTOP_MS ≤ r.updatedAt))
    else
      remote
  match fetchResult with
  | .fail msg =>
      (store, g.2, 0, ["Pull error for " ++ remoteTableName ++ ": " ++ msg])
  | .ok =>
      if remoteRecords.isEmpty then
        (store, g.2, 0, [])
      else if owletFastForward then
        let records := remoteRecords.map (fun r => { r with syncStatus := SyncStatus.synced })
        (records.foldl tablePut store,
          setLastSyncTime g.2 remoteTableName (maxUpdatedAt remoteRecords) nowW,
          records.length, [])
      else
        let merged := pullMergeLoop store remoteRecords
        (merged.1,
          setLastSyncTime g.2 remoteTableName (maxUpdatedAt remoteRecords) nowW,
          merged.2, [])

/-- C2: for `owlet_readings`, whenever the cursor is 0 or older than 3
minutes, the pull runs in fast-forward mode: the fetched rows all have
`recordedAt ≥ now − 60min`, are ascending in `recordedAt`, and number at
most 600; they are applied as one bulk upsert (an unconditional fold of
`tablePut`, not the per-row LWW merge); and the cursor is set to the maximum
`updatedAt` among them (exactly, provided that maximum does not exceed the
clamp bound `nowW` of the cursor write). -/
theorem c2_owlet_fast_forward (storage : CursorStore) (store remote : List Entity)
    (now nowW : Nat)
    (hstale : (getLastSyncTime storage "owlet_readings" now).1 = 0 ∨
      OWLET_FAST_FORWARD_AFTER_MS < now - (getLastSyncTime storage "owlet_readings" now).1)
    (hne : owletWindowQuery remote now ≠ [])
    (hmax : maxUpdatedAt (owletWindowQuery remote now) ≤ nowW) :
    (∀ r ∈ owletWindowQuery remote now, now - OWLET_WINDOW_MS ≤ r.recordedAt) ∧
    (owletWindowQuery remote now).length ≤ 600 ∧
    (owletWindowQuery remote now).Sorted recordedLE ∧
    pullChanges storage store remote "owlet_readings" .ok now nowW
      = (((owletWindowQuery remote now).map
            (fun r => { r with syncStatus := SyncStatus.synced })).foldl tablePut store,
          setLastSyncTime (getLastSyncTime storage "owlet_readings" now).2 "owlet_readings"
            (maxUpdatedAt (owletWindowQuery remote now)) nowW,
          (owletWindowQuery remote now).length, []) ∧
    setLastSyncTime (getLastSyncTime storage "owlet_readings" now).2 "owlet_readings"
        (maxUpdatedAt (owletWindowQuery remote now)) nowW (lastSyncKey "owlet_readings")
      = some (maxUpdatedAt (owletWindowQuery remote now)) := by
  refine ⟨?_, ?_, ?_, ?_, ?_⟩
  · intro r hr
    have hsorted : r ∈ (remote.filter
        (fun r => decide (now - OWLET_WINDOW_MS ≤ r.recordedAt))).insertionSort recordedLE :=
      (List.take_sublist _ _).subset hr
    have hfil : r ∈ remote.filter (fun r => decide (now - OWLET_WINDOW_MS ≤ r.recordedAt)) :=
      (List.perm_insertionSort recordedLE _).subset hsorted
    exact of_decide_eq_true (List.mem_filter.mp hfil).2
  · rw [owletWindowQuery, List.length_take]
    exact Nat.min_le_left _ _
  · exact (List.sorted_insertionSort recordedLE _).sublist (List.take_sublist _ _)
  · have hff : ((("owlet_readings" : String) == "owlet_readings") &&
        (((getLastSyncTime storage "owlet_readings" now).1 == 0) ||
          decide (OWLET_FAST_FORWARD_AFTER_MS
            < now - (getLastSyncTime storage "owlet_readings" now).1))) = true := by
      rcases hstale with h0 | hgap
      · simp [h0]
      · simp [hgap]
    have hemp : (owletWindowQuery remote now).isEmpty = false := by
      cases hq : owletWindowQuery remote now with
      | nil => exact absurd hq hne
      | cons a l => rfl
    simp only [pullChanges, hff, hemp, if_true, Bool.false_eq_true, if_false,
      List.length_map]
  · simp only [setLastSyncTime, if_pos rfl]
    rw [Nat.min_eq_left hmax]
    simp

/-- The empty cursor store (no cursors persisted yet). -/
def emptyCursorStore : CursorStore := fun _ => none

/-- A telemetry row inside the 60-minute window at `now = 100`. -/
def demoOwletReading : Entity :=
  { id := "o1", childId := "c", recordedAt := 100, createdAt := 1, updatedAt := 5,
    syncStatus := .pending, deleted := false, payload := 1 }

/-- Witness for `c2_owlet_fast_forward` at a concrete input: cursor 0 forces
fast-forward, the fetch is bounded by 600, and the cursor lands on the
fetched row's `updatedAt`. -/
theorem c2_owlet_fast_forward_witness :
    (owletWindowQuery [demoOwletReading] 100).length ≤ 600 ∧
    setLastSyncTime (getLastSyncTime emptyCursorStore "owlet_readings" 100).2
        "owlet_readings" (maxUpdatedAt (owletWindowQuery [demoOwletReading] 100)) 200
        (lastSyncKey "owlet_readings")
      = some (maxUpdatedAt (owletWindowQuery [demoOwletReading] 100)) := by
  have h := c2_owlet_fast_forward emptyCursorStore [] [demoOwletReading] 100 200
    (Or.inl (by decide)) (by decide) (by decide)
  exact ⟨h.2.1, h.2.2.2.2⟩

/-- A two-row table: one pending row and one synced row. -/
def demoPushStore : List Entity :=
  [{ id := "p", childId := "c", recordedAt := 0, createdAt := 1, updatedAt := 10,
     syncStatus := .pending, deleted := false, payload := 1 },
   { id := "s", childId := "c", recordedAt := 0, createdAt := 1, updatedAt := 20,
     syncStatus := .synced, deleted := false, payload := 2 }]

/-- Witness for `c5_push` on a concrete store: the batch is the pending row,
success marks it synced with count 1, failure leaves the store unchanged
with count 0 and one error string. -/
theorem c5_push_witness :
    (pushChanges demoPushStore "children" .ok).2.1
        = demoPushStore.filter (fun r => r.syncStatus == .pending) ∧
    (pushChanges demoPushStore "children" .ok).2.2.1 = 1 ∧
    (pushChanges demoPushStore "children" (.fail "boom")).1 = demoPushStore ∧
    (pushChanges demoPushStore "children" (.fail "boom")).2.2.2
        = ["Push error for children: boom"] := by
  have h := c5_push demoPushStore "children" "boom" (by decide)
  refine ⟨h.1 .ok, ?_, ?_, ?_⟩
  · rw [h.2.2.1]; decide
  · exact (h.2.2.2.2 (by decide)).1
  · exact (h.2.2.2.2 (by decide)).2.2

/-! ## Root-entity reconciliation (sync.ts lines 328–410)

`mergeChildren` is a remote-side rewrite; the remote store is modelled as
one list per synced table.  For children rows the `childId`/`recordedAt`
fields of `Entity` are unused padding (the source row has no such keys); the
canonical upsert carries them over from `oldChild` unchanged. -/

/-- `DEFAULT_CHILD_ID` (sync.ts line 329). -/
def DEFAULT_CHILD_ID : String := "00000000-0000-0000-0000-000000000001"

/-- The remote (Supabase) database: one row list per synced table. -/
structure RemoteDB where
  children : List Entity
  sleep_sessions : List Entity
  feeding_sessions : List Entity
  pump_sessions : List Entity
  diaper_changes : List Entity
  growth_measurements : List Entity
  owlet_readings : List Entity
deriving DecidableEq, Repr

/-- The `dataTables` array of `mergeChildren` (sync.ts line 359): the tables
whose rows get re-assigned to the fixed child id. -/
def mergeDataTables : List String :=
  ["sleep_sessions", "feeding_sessions", "pump_sessions", "diaper_changes", "owlet_readings"]

/-- One iteration of the `for (const table of dataTables)` loop: fetch the
rows whose `childId` is one of the duplicate ids, swap the foreign key to
the fixed id, bump `updatedAt`, and batch-upsert them back by `id`. -/
def mergeRepoint (tbl : List Entity) (oldIds : List String) (now : Nat) : List Entity :=
  let records := tbl.filter (fun r => oldIds.contains r.childId)
  let updated := records.map (fun r => { r with childId := DEFAULT_CHILD_ID, updatedAt := now })
  updated.foldl tablePut tbl

/-- Dispatch a `dataTables` entry to the remote table it names. -/
def applyRepointByName (db : RemoteDB) (name : String) (oldIds : List String)
    (now : Nat) : RemoteDB :=
  if name == "sleep_sessions" then
    { db with sleep_sessions := mergeRepoint db.sleep_sessions oldIds now }
  else if name == "feeding_sessions" then
    { db with feeding_sessions := mergeRepoint db.feeding_sessions oldIds now }
  else if name == "pump_sessions" then
    { db with pump_sessions := mergeRepoint db.pump_sessions oldIds now }
  else if name == "diaper_changes" then
    { db with diaper_changes := mergeRepoint db.diaper_changes oldIds now }
  else if name == "growth_measurements" then
    { db with growth_measurements := mergeRepoint db.growth_measurements oldIds now }
  else if name == "owlet_readings" then
    { db with owlet_readings := mergeRepoint db.owlet_readings oldIds now }
  else
    db

/-- `mergeChildren` (success path of every remote call): gather non-deleted
children, collect the non-fixed ids, re-point the `dataTables`, upsert the
canonical child built from the first non-fixed child, and soft-delete every
non-fixed child. -/
def mergeChildren (db : RemoteDB) (now : Nat) : RemoteDB :=
  let allChildren := db.children.filter (fun c => c.deleted == false)
  if allChildren.isEmpty then db
  else
    let oldIds := (allChildren.filter (fun c => !(c.id == DEFAULT_CHILD_ID))).map
      (fun c => c.id)
    if oldIds.isEmpty then db
    else
      let oldChild :=
        match allChildren.find? (fun c => !(c.id == DEFAULT_CHILD_ID)) with
        | some c => c
        | none => allChildren.headD default
      let db1 := mergeDataTables.foldl
        (fun d name => applyRepointByName d name oldIds now) db
      let canonical : Entity :=
        { id := DEFAULT_CHILD_ID, childId := oldChild.childId,
          recordedAt := oldChild.recordedAt, createdAt := oldChild.createdAt,
          updatedAt := now, syncStatus := .synced, deleted := false,
          payload := oldChild.payload }
      let db2 := { db1 with children := tablePut db1.children canonical }
      { db2 with
        children := oldIds.foldl
          (fun cs oldId => cs.map (fun c =>
            if c.id == oldId then { c with deleted := true, updatedAt := now } else c))
          db2.children }

/-- A duplicate (non-fixed) root entity pushed by another device. -/
def childR1 : Entity :=
  { id := "R1", childId := "", recordedAt := 0, createdAt := 10, updatedAt := 10,
    syncStatus := .synced, deleted := false, payload := 42 }

/-- A sleep session depending on the duplicate root. -/
def sleepS1 : Entity :=
  { id := "s1", childId := "R1", recordedAt := 0, createdAt := 10, updatedAt := 10,
    syncStatus := .synced, deleted := false, payload := 6 }

/-- A growth measurement depending on the duplicate root. -/
def growthG1 : Entity :=
  { id := "g1", childId := "R1", recordedAt := 0, createdAt := 10, updatedAt := 10,
    syncStatus := .synced, deleted := false, payload := 5 }

def demoRemoteDB : RemoteDB :=
  { children := [childR1], sleep_sessions := [sleepS1], feeding_sessions := [],
    pump_sessions := [], diaper_changes := [], growth_measurements := [growthG1],
    owlet_readings := [] }

/-- C7 (code bug): the reconciliation pass re-points the sleep dependent to
the fixed child id and soft-deletes the duplicate root, but it never
re-points the growth measurement, because `growth_measurements` is missing
from `dataTables` — the growth row keeps `childId = "R1"`, which now refers
to a soft-deleted child, contradicting the claim (and the merge's own
"all data under fixed child ID" log). -/
theorem c7_growth_not_repointed :
    (mergeChildren demoRemoteDB 100).sleep_sessions
      = [{ sleepS1 with childId := DEFAULT_CHILD_ID, updatedAt := 100 }] ∧
    (mergeChildren demoRemoteDB 100).growth_measurements = [growthG1] ∧
    (mergeChildren demoRemoteDB 100).children.find? (fun c => c.id == "R1")
      = some { childR1 with deleted := true, updatedAt := 100 } ∧
    "growth_measurements" ∉ mergeDataTables := by
  refine ⟨by decide, by decide, by decide, by decide⟩

/-! ## Local mutation/query API (src/lib/supabase.ts)

Sleep sessions carry the fields the sleep operations read or write.  The
local-midnight day bounds computed via `setHours(0,0,0,0)` /
`setHours(23,59,59,999)` are abstracted as the pair `(dayStart, dayEnd)`. -/

inductive SleepType where
  | nap
  | night
deriving DecidableEq, Repr, Inhabited

/-- A `SleepSession` row (src/types): `endTime` and `notes` are optional. -/
structure SleepSession where
  id : String
  childId : String
  startTime : Nat
  endTime : Option Nat
  sleepType : SleepType
  notes : Option String
  createdAt : Nat
  updatedAt : Nat
  syncStatus : SyncStatus
  deleted : Bool
deriving DecidableEq, Repr, Inhabited

/-- JavaScript truthiness of an optional millisecond timestamp:
`!s.endTime` is true when `endTime` is `undefined` or `0`. -/
def jsTruthyTime (t : Option Nat) : Bool :=
  match t with
  | none => false
  | some v => !(v == 0)

/-- `deleteSleepSession` (supabase.ts 391–398): a Dexie keyed update setting
`_deleted`, `updatedAt` and `syncStatus` — never a row removal. -/
def deleteSleepSession (store : List SleepSession) (sessionId : String)
    (now : Nat) : List SleepSession :=
  store.map (fun r =>
    if r.id == sessionId then
      { r with deleted := true, updatedAt := now, syncStatus := .pending }
    else r)

/-- Ordering of sleep sessions by `startTime` (`sortBy('startTime')`). -/
def startLE (a b : SleepSession) : Prop := a.startTime ≤ b.startTime

instance : DecidableRel startLE := fun _ _ => Nat.decLe _ _

instance : IsTotal SleepSession startLE := ⟨fun _ _ => Nat.le_total _ _⟩

instance : IsTrans SleepSession startLE := ⟨fun _ _ _ h₁ h₂ => Nat.le_trans h₁ h₂⟩

/-- Descending ordering by `endTime` (`reverse().sortBy('endTime')`). -/
def endDescLE (a b : SleepSession) : Prop := b.endTime.getD 0 ≤ a.endTime.getD 0

instance : DecidableRel endDescLE := fun _ _ => Nat.decLe _ _

instance : IsTotal SleepSession endDescLE := ⟨fun _ _ => Nat.le_total _ _⟩

instance : IsTrans SleepSession endDescLE := ⟨fun _ _ _ h₁ h₂ => Nat.le_trans h₂ h₁⟩

/-- `getSleepSessionsForDay` (supabase.ts 180–191). -/
def getSleepSessionsForDay (store : List SleepSession) (childId : String)
    (dayStart dayEnd : Nat) : List SleepSession :=
  (store.filter (fun s =>
    (s.childId == childId) && !s.deleted &&
      decide (dayStart ≤ s.startTime) && decide (s.startTime ≤ dayEnd))).insertionSort
    startLE

/-- `getLastSleepSession` (supabase.ts 193–202): ended, non-deleted sessions
of the child, descending by `endTime`; the first one. -/
def getLastSleepSession (store : List SleepSession) (childId : String) :
    Option SleepSession :=
  ((store.filter (fun s =>
    (s.childId == childId) && !s.deleted && s.endTime.isSome)).insertionSort
    endDescLE).head?

/-- C4: `deleteSleepSession` never removes the row: it keeps every row (same
length, other rows untouched), turns the target row into a tombstone
(`_deleted = true`, `updatedAt = now`, `syncStatus = pending`) — strictly
increasing `updatedAt` whenever the clock `now` is past the row's previous
`updatedAt` — and the "for day" / "last" queries never return a deleted
row. -/
theorem c4_soft_delete (store : List SleepSession) (sessionId : String) (now : Nat) :
    (deleteSleepSession store sessionId now).length = store.length ∧
    (∀ r ∈ store, r.id ≠ sessionId → r ∈ deleteSleepSession store sessionId now) ∧
    (∀ r ∈ store, r.id = sessionId →
      { r with deleted := true, updatedAt := now, syncStatus := .pending }
        ∈ deleteSleepSession store sessionId now) ∧
    (∀ r' ∈ deleteSleepSession store sessionId now, r'.id = sessionId →
      r'.deleted = true ∧ r'.updatedAt = now ∧ r'.syncStatus = .pending) ∧
    (∀ r ∈ store, r.id = sessionId → r.updatedAt < now →
      ∃ r' ∈ deleteSleepSession store sessionId now,
        r'.id = sessionId ∧ r.updatedAt < r'.updatedAt) ∧
    (∀ (st : List SleepSession) (c : String) (dayStart dayEnd : Nat),
      ∀ s ∈ getSleepSessionsForDay st c dayStart dayEnd, s.deleted = false) ∧
    (∀ (st : List SleepSession) (c : String) (s : SleepSession),
      getLastSleepSession st c = some s → s.deleted = false) := by
  refine ⟨List.length_map _ _, ?_, ?_, ?_, ?_, ?_, ?_⟩
  · intro r hr hne
    have : (if r.id == sessionId then
        { r with deleted := true, updatedAt := now, syncStatus := .pending }
        else r) = r := by
      rw [if_neg (by simpa using hne)]
    exact List.mem_map.mpr ⟨r, hr, this⟩
  · intro r hr hid
    refine List.mem_map.mpr ⟨r, hr, ?_⟩
    rw [if_pos (by simpa using hid)]
  · intro r' hr' hid
    obtain ⟨r, hr, hre⟩ := List.mem_map.mp hr'
    by_cases h : r.id = sessionId
    · rw [if_pos (by simpa using h)] at hre
      rw [← hre]
      exact ⟨rfl, rfl, rfl⟩
    · rw [if_neg (by simpa using h)] at hre
      rw [← hre] at hid
      exact absurd hid h
  · intro r hr hid hlt
    refine ⟨{ r with deleted := true, updatedAt := now, syncStatus := .pending },
      List.mem_map.mpr ⟨r, hr, by rw [if_pos (by simpa using hid)]⟩, hid, hlt⟩
  · intro st c dayStart dayEnd s hs
    have hmem : s ∈ st.filter (fun s =>
        (s.childId == c) && !s.deleted &&
          decide (dayStart ≤ s.startTime) && decide (s.startTime ≤ dayEnd)) :=
      (List.perm_insertionSort startLE _).subset hs
    have hp := (List.mem_filter.mp hmem).2
    simp only [Bool.and_eq_true, Bool.not_eq_true'] at hp
    exact hp.1.1.2
  · intro st c s hs
    have hmem : s ∈ st.filter (fun s =>
        (s.childId == c) && !s.deleted && s.endTime.isSome) :=
      (List.perm_insertionSort endDescLE _).subset (List.mem_of_mem_head? hs)
    have hp := (List.mem_filter.mp hmem).2
    simp only [Bool.and_eq_true, Bool.not_eq_true'] at hp
    exact hp.1.2

/-- A previously synced sleep session that then gets soft-deleted. -/
def demoSleep : SleepSession :=
  { id := "sl1", childId := "c", startTime := 50, endTime := some 80,
    sleepType := .nap, notes := none, createdAt := 50, updatedAt := 90,
    syncStatus := .synced, deleted := false }

/-- Witness for `c4_soft_delete`: deleting `demoSleep` at `now = 100` keeps
the row, tombstones it with a strictly larger `updatedAt`, and the queries
never return deleted rows on a concrete store. -/
theorem c4_soft_delete_witness :
    (deleteSleepSession [demoSleep] "sl1" 100).length = 1 ∧
    ({ demoSleep with deleted := true, updatedAt := 100, syncStatus := SyncStatus.pending } : SleepSession)
      ∈ deleteSleepSession [demoSleep] "sl1" 100 ∧
    (∃ r' ∈ deleteSleepSession [demoSleep] "sl1" 100,
      r'.id = "sl1" ∧ demoSleep.updatedAt < r'.updatedAt) := by
  have h := c4_soft_delete [demoSleep] "sl1" 100
  exact ⟨h.1, h.2.2.1 demoSleep (by decide) rfl,
    h.2.2.2.2.1 demoSleep (by decide) rfl (by decide)⟩

/-! ## Hard-delete paths (supabase.ts 253–258, 555–559, 749–760; sync.ts 483–489) -/

/-- A `FeedingSession` row (the fields the cancel/delete paths touch). -/
structure FeedingSession where
  id : String
  childId : String
  startTime : Nat
  endTime : Option Nat
  amount : Option Nat
  createdAt : Nat
  updatedAt : Nat
  syncStatus : SyncStatus
  deleted : Bool
deriving DecidableEq, Repr, Inhabited

/-- A `PumpSession` row. -/
structure PumpSession where
  id : String
  childId : String
  startTime : Nat
  endTime : Option Nat
  amount : Option Nat
  createdAt : Nat
  updatedAt : Nat
  syncStatus : SyncStatus
  deleted : Bool
deriving DecidableEq, Repr, Inhabited

/-- `cancelFeeding` (supabase.ts 253–258): `db.feedingSessions.delete(id)` —
a physical Dexie row removal by primary key, with no sync-status guard. -/
def cancelFeeding (store : List FeedingSession) (sessionId : String) :
    List FeedingSession :=
  store.filter (fun r => !(r.id == sessionId))

/-- `cancelPump` (supabase.ts 555–559): same physical removal. -/
def cancelPump (store : List PumpSession) (sessionId : String) :
    List PumpSession :=
  store.filter (fun r => !(r.id == sessionId))

/-- `deleteFeedingSession` (supabase.ts 400–407): soft delete. -/
def deleteFeedingSession (store : List FeedingSession) (sessionId : String)
    (now : Nat) : List FeedingSession :=
  store.map (fun r =>
    if r.id == sessionId then
      { r with deleted := true, updatedAt := now, syncStatus := .pending }
    else r)

/-- `pruneOwletReadingsBefore` (supabase.ts 749–760): physically removes all
telemetry rows recorded before the cutoff (no sync-status guard), returning
the pruned store and the number of removed ids. -/
def pruneOwletReadingsBefore (store : List Entity) (cutoffTime : Nat) :
    List Entity × Nat :=
  let oldReadings := store.filter (fun r => decide (r.recordedAt < cutoffTime))
  if oldReadings.isEmpty then (store, 0)
  else
    let ids := oldReadings.map (fun r => r.id)
    (store.filter (fun r => !(ids.contains r.id)), ids.length)

/-- A feeding session that has already been pushed (`syncStatus = synced`). -/
def demoSyncedFeeding : FeedingSession :=
  { id := "f1", childId := "c", startTime := 10, endTime := none, amount := none,
    createdAt := 10, updatedAt := 20, syncStatus := .synced, deleted := false }

/-- C9 is false as stated: `cancelFeeding` physically removes the row with
the given id even when that entity has been pushed (`syncStatus = synced`) —
there is no "only when unsynced" guard. -/
theorem c9_counterexample :
    demoSyncedFeeding.syncStatus = SyncStatus.synced ∧
    cancelFeeding [demoSyncedFeeding] "f1" = [] := by
  exact ⟨rfl, by decide⟩

/-- C9 (amended): the soft-delete operations never remove rows; the cancel
operations hard-delete exactly the row with the given id, unconditionally —
regardless of whether it has been pushed; the change-feed delete path
removes the row with the event's id unconditionally; and
`pruneOwletReadingsBefore` removes exactly the rows recorded before the
cutoff (in a table with unique ids), also regardless of sync status. -/
theorem c9_hard_delete_paths :
    (∀ (st : List SleepSession) (sid : String) (now : Nat),
      (deleteSleepSession st sid now).length = st.length) ∧
    (∀ (st : List FeedingSession) (sid : String) (now : Nat),
      (deleteFeedingSession st sid now).length = st.length) ∧
    (∀ (st : List FeedingSession) (sid : String),
      (∀ r ∈ st, r.id ≠ sid → r ∈ cancelFeeding st sid) ∧
      (∀ r ∈ cancelFeeding st sid, r.id ≠ sid ∧ r ∈ st)) ∧
    (∀ (st : List PumpSession) (sid : String),
      (∀ r ∈ st, r.id ≠ sid → r ∈ cancelPump st sid) ∧
      (∀ r ∈ cancelPump st sid, r.id ≠ sid ∧ r ∈ st)) ∧
    (∀ (st : List Entity) (oldId : String),
      ∀ r ∈ handleRealtimeChange st (.delete oldId), r.id ≠ oldId ∧ r ∈ st) ∧
    (∀ (st : List Entity) (cutoffTime : Nat),
      (st.map (fun r => r.id)).Nodup →
      (pruneOwletReadingsBefore st cutoffTime).1
        = st.filter (fun r => !(decide (r.recordedAt < cutoffTime)))) := by
  refine ⟨fun st sid now => List.length_map _ _, fun st sid now => List.length_map _ _,
    ?_, ?_, ?_, ?_⟩
  · intro st sid
    constructor
    · intro r hr hne
      exact List.mem_filter.mpr ⟨hr, by simpa using hne⟩
    · intro r hr
      have h := List.mem_filter.mp hr
      exact ⟨by simpa using h.2, h.1⟩
  · intro st sid
    constructor
    · intro r hr hne
      exact List.mem_filter.mpr ⟨hr, by simpa using hne⟩
    · intro r hr
      have h := List.mem_filter.mp hr
      exact ⟨by simpa using h.2, h.1⟩
  · intro st oldId r hr
    have h := List.mem_filter.mp hr
    exact ⟨by simpa using h.2, h.1⟩
  · intro st cutoffTime hnodup
    unfold pruneOwletReadingsBefore
    by_cases hemp : (st.filter (fun r => decide (r.recordedAt < cutoffTime))).isEmpty
    · rw [if_pos hemp]
      have hnil : st.filter (fun r => decide (r.recordedAt < cutoffTime)) = [] :=
        List.isEmpty_iff.mp hemp
      have : ∀ r ∈ st, (!(decide (r.recordedAt < cutoffTime))) = true := by
        intro r hr
        by_contra hc
        have hold : decide (r.recordedAt < cutoffTime) = true := by
          revert hc
          cases decide (r.recordedAt < cutoffTime) <;> simp
        have : r ∈ st.filter (fun r => decide (r.recordedAt < cutoffTime)) :=
          List.mem_filter.mpr ⟨hr, hold⟩
        rw [hnil] at this
        cases this
      exact (List.filter_eq_self.mpr this).symm
    · rw [if_neg hemp]
      apply List.filter_congr
      intro r hr
      have key : ((st.filter (fun r => decide (r.recordedAt < cutoffTime))).map
            (fun r => r.id)).contains r.id
          = decide (r.recordedAt < cutoffTime) := by
        by_cases hold : r.recordedAt < cutoffTime
        · have hmem : r ∈ st.filter (fun r => decide (r.recordedAt < cutoffTime)) :=
            List.mem_filter.mpr ⟨hr, by simpa using hold⟩
          rw [decide_eq_true hold]
          exact List.elem_iff.mpr (List.mem_map.mpr ⟨r, hmem, rfl⟩)
        · rw [decide_eq_false hold]
          by_contra hc
          have hct : ((st.filter (fun r => decide (r.recordedAt < cutoffTime))).map
              (fun r => r.id)).contains r.id = true := by
            revert hc
            cases ((st.filter (fun r => decide (r.recordedAt < cutoffTime))).map
                (fun r => r.id)).contains r.id <;> simp
          obtain ⟨p, hpmem, hpid⟩ := List.mem_map.mp (List.elem_iff.mp hct)
          have hpe : p = r :=
            eq_of_nodup_ids hnodup (List.mem_filter.mp hpmem).1 hr hpid
          have : decide (r.recordedAt < cutoffTime) = true := by
            rw [← hpe]
            exact (List.mem_filter.mp hpmem).2
          exact hold (of_decide_eq_true this)
      rw [key]

/-- An old synced telemetry row and a recent one, for the prune equation. -/
def demoOldReading : Entity :=
  { id := "old", childId := "c", recordedAt := 5, createdAt := 5, updatedAt := 5,
    syncStatus := .synced, deleted := false, payload := 0 }

def demoNewReading : Entity :=
  { id := "new", childId := "c", recordedAt := 50, createdAt := 50, updatedAt := 50,
    syncStatus := .synced, deleted := false, payload := 0 }

/-- Witness for `c9_hard_delete_paths`: the other-row survival and removal
facts of `cancelFeeding` at a concrete store, and the prune equation on a
concrete telemetry table with unique ids. -/
theorem c9_hard_delete_paths_witness :
    demoSyncedFeeding ∈ cancelFeeding [demoSyncedFeeding] "other" ∧
    (pruneOwletReadingsBefore [demoOldReading, demoNewReading] 10).1
      = [demoOldReading, demoNewReading].filter
          (fun r => !(decide (r.recordedAt < 10))) := by
  constructor
  · exact (c9_hard_delete_paths.2.2.1 [demoSyncedFeeding] "other").1
      demoSyncedFeeding (by decide) (by decide)
  · exact c9_hard_delete_paths.2.2.2.2.2 [demoOldReading, demoNewReading] 10 (by decide)

/-! ## startSleep (supabase.ts lines 50–118) -/

/-- The open-session predicate of `startSleep`'s query:
`!s._deleted && !s.endTime && s.startTime > 0` (JS truthiness on
`endTime`). -/
def isOpenSleep (s : SleepSession) : Bool :=
  !s.deleted && !(jsTruthyTime s.endTime) && decide (0 < s.startTime)

/-- `where('childId').equals(childId).and(isOpenSleep)`. -/
def openSleepFor (childId : String) (s : SleepSession) : Bool :=
  (s.childId == childId) && isOpenSleep s

/-- The reducer
`(latest, current) => current.startTime > latest.startTime ? current : latest`. -/
def latestOf (latest current : SleepSession) : SleepSession :=
  if latest.startTime < current.startTime then current else latest

/-- The fresh session created when no open session exists. -/
def freshSleepSession (childId : String) (sleepType : SleepType) (now : Nat)
    (newId : String) : SleepSession :=
  { id := newId, childId := childId, startTime := now, endTime := none,
    sleepType := sleepType, notes := none, createdAt := now, updatedAt := now,
    syncStatus := .pending, deleted := false }

/-- One entry of the `bulkUpdate` that closes an overlapping open session:
if the row's id is one of the `toClose` ids, set
`endTime = max(s.startTime + 1, mostRecent.startTime)`, bump `updatedAt`,
mark pending. -/
def closeRow (toClose : List SleepSession) (mostRecent : SleepSession)
    (now : Nat) (r : SleepSession) : SleepSession :=
  match toClose.find? (fun s => s.id == r.id) with
  | some s =>
    { r with endTime := some (max (s.startTime + 1) mostRecent.startTime), updatedAt := now, syncStatus := .pending }
  | none => r

/-- The `bulkUpdate` keyed by the `toClose` ids. -/
def closeOthers (store toClose : List SleepSession) (mostRecent : SleepSession)
    (now : Nat) : List SleepSession :=
  store.map (closeRow toClose mostRecent now)

/-- `startSleep`: reuse the most recent open session for the child, closing
any other open ones; otherwise create a fresh pending session.  Returns the
new store and the returned session. -/
def startSleep (store : List SleepSession) (childId : String)
    (sleepType : SleepType) (now : Nat) (newId : String) :
    List SleepSession × SleepSession :=
  match store.filter (openSleepFor childId) with
  | [] =>
    (store ++ [freshSleepSession childId sleepType now newId],
      freshSleepSession childId sleepType now newId)
  | first :: rest =>
    let mostRecent := rest.foldl latestOf first
    let toClose := (first :: rest).filter (fun s => !(s.id == mostRecent.id))
    (closeOthers store toClose mostRecent now, mostRecent)

theorem eq_of_nodup_map {α β : Type _} {f : α → β} {l : List α}
    (h : (l.map f).Nodup) {a b : α} (ha : a ∈ l) (hb : b ∈ l)
    (hk : f a = f b) : a = b := by
  induction l with
  | nil => cases ha
  | cons x xs ih =>
    rw [List.map_cons, List.nodup_cons] at h
    rcases List.mem_cons.mp ha with ha' | ha' <;>
      rcases List.mem_cons.mp hb with hb' | hb'
    · rw [ha', hb']
    · exfalso
      apply h.1
      rw [← ha', hk]
      exact List.mem_map.mpr ⟨b, hb', rfl⟩
    · exfalso
      apply h.1
      rw [← hb', ← hk]
      exact List.mem_map.mpr ⟨a, ha', rfl⟩
    · exact ih h.2 ha' hb'

theorem length_filter_le_of_imp {α : Type _} (l : List α) (p q : α → Bool)
    (h : ∀ x ∈ l, p x = true → q x = true) :
    (l.filter p).length ≤ (l.filter q).length := by
  induction l with
  | nil => simp
  | cons x xs ih =>
    have ih' := ih (fun y hy => h y (List.mem_cons.mpr (Or.inr hy)))
    by_cases hp : p x = true
    · rw [List.filter_cons, if_pos hp, List.filter_cons,
        if_pos (h x (List.mem_cons_self x xs) hp)]
      simpa using ih'
    · rw [List.filter_cons, if_neg hp, List.filter_cons]
      by_cases hq : q x = true
      · rw [if_pos hq]
        exact Nat.le_trans ih' (by simp)
      · rw [if_neg hq]
        exact ih'

theorem length_filter_key_le_one {α β : Type _} [BEq β] [LawfulBEq β]
    {f : α → β} {l : List α} (h : (l.map f).Nodup) (v : β) :
    (l.filter (fun x => f x == v)).length ≤ 1 := by
  induction l with
  | nil => simp
  | cons x xs ih =>
    rw [List.map_cons, List.nodup_cons] at h
    by_cases hx : (f x == v) = true
    · have hxeq : f x = v := by simpa using hx
      have hnil : xs.filter (fun x => f x == v) = [] := by
        rw [List.eq_nil_iff_forall_not_mem]
        intro a ha
        have hmem := List.mem_filter.mp ha
        have haeq : f a = v := by simpa using hmem.2
        apply h.1
        rw [hxeq, ← haeq]
        exact List.mem_map.mpr ⟨a, hmem.1, rfl⟩
      rw [List.filter_cons, if_pos hx, hnil]
      simp
    · rw [List.filter_cons, if_neg hx]
      exact ih h.2

/-- The fold of `latestOf` picks a member of maximal `startTime`. -/
theorem foldl_latestOf_spec (rest : List SleepSession) :
    ∀ first, rest.foldl latestOf first ∈ first :: rest ∧
      ∀ x ∈ first :: rest, x.startTime ≤ (rest.foldl latestOf first).startTime := by
  induction rest with
  | nil =>
    intro first
    refine ⟨List.mem_singleton.mpr rfl, ?_⟩
    intro x hx
    rw [List.mem_singleton.mp hx]
    exact Nat.le_refl _
  | cons b t ih =>
    intro first
    have hstep_mem : latestOf first b = first ∨ latestOf first b = b := by
      unfold latestOf
      by_cases h : first.startTime < b.startTime
      · right; rw [if_pos h]
      · left; rw [if_neg h]
    have hstep_le1 : first.startTime ≤ (latestOf first b).startTime := by
      unfold latestOf
      by_cases h : first.startTime < b.startTime
      · rw [if_pos h]; omega
      · rw [if_neg h]
    have hstep_le2 : b.startTime ≤ (latestOf first b).startTime := by
      unfold latestOf
      by_cases h : first.startTime < b.startTime
      · rw [if_pos h]
      · rw [if_neg h]; omega
    obtain ⟨ihmem, ihle⟩ := ih (latestOf first b)
    constructor
    · simp only [List.foldl_cons]
      rcases List.mem_cons.mp ihmem with he | ht
      · rcases hstep_mem with h1 | h1 <;> rw [he, h1]
        · exact List.mem_cons_self _ _
        · exact List.mem_cons.mpr (Or.inr (List.mem_cons_self _ _))
      · exact List.mem_cons.mpr (Or.inr (List.mem_cons.mpr (Or.inr ht)))
    · intro x hx
      simp only [List.foldl_cons]
      rcases List.mem_cons.mp hx with hxf | hx'
      · rw [hxf]
        exact Nat.le_trans hstep_le1 (ihle _ (List.mem_cons_self _ _))
      rcases List.mem_cons.mp hx' with hxb | hxt
      · rw [hxb]
        exact Nat.le_trans hstep_le2 (ihle _ (List.mem_cons_self _ _))
      · exact ihle x (List.mem_cons.mpr (Or.inr hxt))

theorem closeRow_of_none {toClose : List SleepSession} {mostRecent : SleepSession}
    {now : Nat} {r : SleepSession}
    (hf : toClose.find? (fun s => s.id == r.id) = none) :
    closeRow toClose mostRecent now r = r := by
  simp only [closeRow, hf]

theorem closeRow_of_some {toClose : List SleepSession} {mostRecent : SleepSession}
    {now : Nat} {r s : SleepSession}
    (hf : toClose.find? (fun s => s.id == r.id) = some s) :
    closeRow toClose mostRecent now r
      = { r with endTime := some (max (s.startTime + 1) mostRecent.startTime), updatedAt := now, syncStatus := .pending } := by
  simp only [closeRow, hf]

/-- A closed row is not open: its new `endTime` is a nonzero timestamp. -/
theorem closeRow_not_open {toClose : List SleepSession} {mostRecent : SleepSession}
    {now : Nat} {r s : SleepSession} (childId : String)
    (hf : toClose.find? (fun s => s.id == r.id) = some s) :
    openSleepFor childId (closeRow toClose mostRecent now r) = false := by
  rw [closeRow_of_some hf]
  have hne0 : (max (s.startTime + 1) mostRecent.startTime == 0) = false := by
    have := Nat.le_max_left (s.startTime + 1) mostRecent.startTime
    simp only [beq_eq_false_iff_ne, ne_eq]
    omega
  simp [openSleepFor, isOpenSleep, jsTruthyTime, hne0]

/-- C10: after any `startSleep` call at most one non-deleted open sleep
session (positive `startTime`, no/zero `endTime`) exists for the child.  If
open sessions already existed, no session is created (same length), the
returned session is an open one of maximal `startTime`, and every other open
session is closed with an `endTime` no earlier than its own `startTime` and
marked pending.  If none existed, the store gains exactly the fresh open
session. -/
theorem c10_single_open_sleep (store : List SleepSession) (childId : String)
    (sleepType : SleepType) (now : Nat) (newId : String)
    (hnodup : (store.map (fun r => r.id)).Nodup) :
    ((startSleep store childId sleepType now newId).1.filter
        (openSleepFor childId)).length ≤ 1 ∧
    (store.filter (openSleepFor childId) ≠ [] →
      (startSleep store childId sleepType now newId).1.length = store.length ∧
      (startSleep store childId sleepType now newId).2
          ∈ store.filter (openSleepFor childId) ∧
      (∀ s ∈ store.filter (openSleepFor childId),
        s.startTime ≤ (startSleep store childId sleepType now newId).2.startTime) ∧
      (∀ s ∈ store.filter (openSleepFor childId),
        s.id ≠ (startSleep store childId sleepType now newId).2.id →
        ∃ r ∈ (startSleep store childId sleepType now newId).1,
          r.id = s.id ∧ (∃ e, r.endTime = some e ∧ s.startTime ≤ e) ∧
            r.syncStatus = .pending)) ∧
    (store.filter (openSleepFor childId) = [] →
      (startSleep store childId sleepType now newId).1
        = store ++ [freshSleepSession childId sleepType now newId]) := by
  cases hos : store.filter (openSleepFor childId) with
  | nil =>
    have hred : startSleep store childId sleepType now newId
        = (store ++ [freshSleepSession childId sleepType now newId],
            freshSleepSession childId sleepType now newId) := by
      unfold startSleep
      rw [hos]
    refine ⟨?_, fun hne => absurd rfl hne, fun _ => by rw [hred]⟩
    rw [hred, List.filter_append, hos, List.nil_append]
    exact Nat.le_trans (List.length_filter_le _ _) (by simp)
  | cons first rest =>
    have hred : startSleep store childId sleepType now newId
        = (closeOthers store
            ((first :: rest).filter
              (fun s => !(s.id == (rest.foldl latestOf first).id)))
            (rest.foldl latestOf first) now,
          rest.foldl latestOf first) := by
      unfold startSleep
      rw [hos]
    obtain ⟨hmem, hle⟩ := foldl_latestOf_spec rest first
    set mR := rest.foldl latestOf first with hmRdef
    set toClose := (first :: rest).filter (fun s => !(s.id == mR.id)) with htcdef
    have htc_store : ∀ s ∈ toClose, s ∈ store := by
      intro s hs
      have h1 : s ∈ first :: rest := (List.mem_filter.mp hs).1
      rw [← hos] at h1
      exact (List.mem_filter.mp h1).1
    have hfind_self : ∀ s ∈ toClose, toClose.find? (fun x => x.id == s.id) = some s := by
      intro s hs
      cases hf : toClose.find? (fun x => x.id == s.id) with
      | none =>
        exact absurd (by simp : (s.id == s.id) = true)
          (by simpa using List.find?_eq_none.mp hf s hs)
      | some s'' =>
        have hid : s''.id = s.id := by simpa using List.find?_some hf
        have hmem'' : s'' ∈ toClose := List.mem_of_find?_eq_some hf
        rw [eq_of_nodup_map hnodup (htc_store s'' hmem'') (htc_store s hs) hid]
    have hopen_id : ∀ r ∈ store,
        openSleepFor childId (closeRow toClose mR now r) = true → r.id = mR.id := by
      intro r hr hopen
      cases hfr : toClose.find? (fun x => x.id == r.id) with
      | some s =>
        rw [closeRow_not_open childId hfr] at hopen
        cases hopen
      | none =>
        rw [closeRow_of_none hfr] at hopen
        by_contra hne
        have hrc : r ∈ toClose := by
          rw [htcdef]
          refine List.mem_filter.mpr ⟨?_, by simpa using hne⟩
          rw [← hos]
          exact List.mem_filter.mpr ⟨hr, hopen⟩
        exact absurd (by simp : (r.id == r.id) = true)
          (by simpa using List.find?_eq_none.mp hfr r hrc)
    refine ⟨?_, fun _ => ⟨?_, ?_, ?_, ?_⟩,
      fun hemp => absurd hemp (List.cons_ne_nil _ _)⟩
    · simp only [hred]
      rw [closeOthers, List.filter_map, List.length_map]
      refine Nat.le_trans (length_filter_le_of_imp store _ _ ?_)
        (length_filter_key_le_one hnodup mR.id)
      intro r hr hp
      have := hopen_id r hr hp
      simpa using this
    · simp only [hred]
      exact List.length_map _ _
    · simp only [hred]
      exact hmem
    · intro s hs
      simp only [hred]
      exact hle s hs
    · intro s hs hne
      simp only [hred] at hne ⊢
      have hsc : s ∈ toClose := by
        rw [htcdef]
        exact List.mem_filter.mpr ⟨hs, by simpa using hne⟩
      have hsstore : s ∈ store := htc_store s hsc
      refine ⟨closeRow toClose mR now s, ?_, ?_⟩
      · exact List.mem_map.mpr ⟨s, hsstore, rfl⟩
      · rw [closeRow_of_some (hfind_self s hsc)]
        refine ⟨rfl, ⟨max (s.startTime + 1) mR.startTime, rfl, ?_⟩, rfl⟩
        have := Nat.le_max_left (s.startTime + 1) mR.startTime
        omega

/-- A store with two open sleep sessions for the same child (an edge case
created by multi-device sync) plus one closed one. -/
def demoOpenA : SleepSession :=
  { id := "a", childId := "c", startTime := 10, endTime := none,
    sleepType := .nap, notes := none, createdAt := 10, updatedAt := 10,
    syncStatus := .synced, deleted := false }

def demoOpenB : SleepSession :=
  { id := "b", childId := "c", startTime := 30, endTime := none,
    sleepType := .nap, notes := none, createdAt := 30, updatedAt := 30,
    syncStatus := .synced, deleted := false }

def demoClosedC : SleepSession :=
  { id := "d", childId := "c", startTime := 1, endTime := some 5,
    sleepType := .nap, notes := none, createdAt := 1, updatedAt := 5,
    syncStatus := .synced, deleted := false }

/-- Witness for `c10_single_open_sleep` on a concrete store with two open
sessions: at most one open session remains, no session is created, the
returned session is the one with the greater `startTime`, and the other one
gets closed. -/
theorem c10_single_open_sleep_witness :
    ((startSleep [demoOpenA, demoOpenB, demoClosedC] "c" .nap 100 "fresh").1.filter
        (openSleepFor "c")).length ≤ 1 ∧
    (startSleep [demoOpenA, demoOpenB, demoClosedC] "c" .nap 100 "fresh").1.length = 3 ∧
    (startSleep [demoOpenA, demoOpenB, demoClosedC] "c" .nap 100 "fresh").2
        ∈ [demoOpenA, demoOpenB, demoClosedC].filter (openSleepFor "c") ∧
    (∃ r ∈ (startSleep [demoOpenA, demoOpenB, demoClosedC] "c" .nap 100 "fresh").1,
      r.id = demoOpenA.id ∧ (∃ e, r.endTime = some e ∧ demoOpenA.startTime ≤ e) ∧
        r.syncStatus = .pending) := by
  have h := c10_single_open_sleep [demoOpenA, demoOpenB, demoClosedC] "c" .nap 100 "fresh"
    (by decide)
  have hne : [demoOpenA, demoOpenB, demoClosedC].filter (openSleepFor "c") ≠ [] := by decide
  refine ⟨h.1, (h.2.1 hne).1, (h.2.1 hne).2.1, ?_⟩
  refine (h.2.1 hne).2.2.2 demoOpenA (by decide) ?_
  decide

/-! ## Orchestrator single-flight (sync.ts lines 16–46 and 413–451)

A sync cycle is a sequence of atomic push/pull actions separated by `await`
points (every network request suspends).  JavaScript's single-threaded event
loop is modelled as a nondeterministic scheduler choosing which ready task
advances at each step.

Two kinds of task, after the source's two trigger paths:
* a *debounced* task (the `triggerSync` timeout callback): when it fires it
  `await`s the module-level `syncPromise` if one is in flight — it can start
  running only once that task has finished — then registers itself as
  `syncPromise` and runs; its `finally` clears `syncPromise` when its last
  action completes;
* a *direct* task (`setupAutoSync`'s `handleSync`, used by the
  network-online, visibility-change and periodic-interval triggers): it
  calls `syncAll()` immediately and never touches `syncPromise`. -/

/-- An atomic sync action on a table (each one is an awaited request). -/
inductive SyncAct where
  | push (table : Nat)
  | pull (table : Nat)
deriving DecidableEq, Repr

inductive TaskPhase where
  | notFired
  | awaiting (p : Nat)
  | running
deriving DecidableEq, Repr

structure SyncTask where
  debounced : Bool
  phase : TaskPhase
  todo : List SyncAct
deriving DecidableEq, Repr

/-- The orchestrator state: the spawned tasks plus the module-level
`syncPromise` (`inflight` = index of the registered cycle, if any). -/
structure SyncSys where
  tasks : List SyncTask
  inflight : Option Nat
deriving DecidableEq, Repr

/-- A task's promise has resolved: it ran and has no actions left. -/
def taskFinished (t : SyncTask) : Bool :=
  (t.phase == TaskPhase.running) && t.todo.isEmpty

/-- One scheduler step advancing task `i` (a no-op if `i` is blocked,
finished or absent); returns the new state and the emitted trace. -/
def syncStep (s : SyncSys) (i : Nat) : SyncSys × List (Nat × SyncAct) :=
  match s.tasks.get? i with
  | none => (s, [])
  | some t =>
    match t.phase with
    | .notFired =>
      if t.debounced then
        match s.inflight with
        | none =>
          ({ tasks := s.tasks.set i { t with phase := .running }, inflight := some i }, [])
        | some p =>
          ({ tasks := s.tasks.set i { t with phase := .awaiting p }, inflight := s.inflight }, [])
      else
        ({ tasks := s.tasks.set i { t with phase := .running }, inflight := s.inflight }, [])
    | .awaiting p =>
      match s.tasks.get? p with
      | none => (s, [])
      | some tp =>
        if taskFinished tp then
          ({ tasks := s.tasks.set i { t with phase := .running }, inflight := some i }, [])
        else
          (s, [])
    | .running =>
      match t.todo with
      | [] => (s, [])
      | act :: rest =>
        ({ tasks := s.tasks.set i { t with todo := rest },
           inflight := if rest.isEmpty && t.debounced then none else s.inflight },
         [(i, act)])

/-- Run a schedule, collecting the emitted `(task, action)` trace. -/
def syncRun (sched : List Nat) (s : SyncSys) : List (Nat × SyncAct) :=
  match sched with
  | [] => []
  | i :: rest => (syncStep s i).2 ++ syncRun rest (syncStep s i).1

/-- Run a schedule, returning the final state. -/
def syncExec (sched : List Nat) (s : SyncSys) : SyncSys :=
  match sched with
  | [] => s
  | i :: rest => syncExec rest (syncStep s i).1

/-- The task indices of a trace. -/
def syncTags (sched : List Nat) (s : SyncSys) : List Nat :=
  (syncRun sched s).map Prod.fst

/-- Number of adjacent task switches in a trace's tag list; a serial
(non-interleaved) execution of two cycles has at most one switch. -/
def tagChanges : List Nat → Nat
  | a :: b :: rest => (if a = b then 0 else 1) + tagChanges (b :: rest)
  | _ => 0

def directCycleTask (todo : List SyncAct) : SyncTask :=
  { debounced := false, phase := .notFired, todo := todo }

def debouncedCycleTask (todo : List SyncAct) : SyncTask :=
  { debounced := true, phase := .notFired, todo := todo }

/-- Two cycles triggered through `setupAutoSync` handlers (e.g. the
visibility-change handler and the periodic interval). -/
def twoDirectSys (t0 t1 : List SyncAct) : SyncSys :=
  { tasks := [directCycleTask t0, directCycleTask t1], inflight := none }

/-- Two cycles triggered through the debounced `triggerSync` path. -/
def twoDebouncedSys (t0 t1 : List SyncAct) : SyncSys :=
  { tasks := [debouncedCycleTask t0, debouncedCycleTask t1], inflight := none }

/-- C6 is false as stated: two sync cycles triggered by `setupAutoSync`
handlers (network-online / visibility / interval) call `syncAll()` directly,
without consulting or registering the `syncPromise` guard, so the scheduler
can interleave them: with both cycles doing push-then-pull on table 0, the
schedule below yields the trace push₀(cycle 0), push₀(cycle 1), pull₀(cycle
0), pull₀(cycle 1) — push and pull for the same table interleaved across the
two cycles (3 task switches instead of at most 1), with both cycles run to
completion. -/
theorem c6_counterexample :
    syncRun [0, 1, 0, 1, 0, 1]
        (twoDirectSys [.push 0, .pull 0] [.push 0, .pull 0])
      = [(0, .push 0), (1, .push 0), (0, .pull 0), (1, .pull 0)] ∧
    tagChanges (syncTags [0, 1, 0, 1, 0, 1]
        (twoDirectSys [.push 0, .pull 0] [.push 0, .pull 0])) = 3 ∧
    ((syncExec [0, 1, 0, 1, 0, 1]
        (twoDirectSys [.push 0, .pull 0] [.push 0, .pull 0])).tasks.all
      taskFinished) = true := by
  refine ⟨by decide, by decide, by decide⟩

/-- A task that is running with actions left (its cycle is mid-flight). -/
def runningBusy (t : SyncTask) : Prop := t.phase = .running ∧ t.todo ≠ []

/-- Invariant of a two-task debounced system: both tasks use the
`triggerSync` path; the registered `syncPromise` owner is a running task;
any mid-flight task is the registered one (so at most one is mid-flight);
and an awaiting task awaits the other, which is running. -/
def DebInv (s : SyncSys) : Prop :=
  ∃ A B, s.tasks = [A, B] ∧ A.debounced = true ∧ B.debounced = true ∧
    (∀ p, s.inflight = some p →
      (p = 0 ∧ A.phase = .running) ∨ (p = 1 ∧ B.phase = .running)) ∧
    (runningBusy A → s.inflight = some 0) ∧
    (runningBusy B → s.inflight = some 1) ∧
    (∀ p, A.phase = .awaiting p → p = 1 ∧ B.phase = .running) ∧
    (∀ p, B.phase = .awaiting p → p = 0 ∧ A.phase = .running)

theorem debInv_init (t0 t1 : List SyncAct) : DebInv (twoDebouncedSys t0 t1) := by
  refine ⟨debouncedCycleTask t0, debouncedCycleTask t1, rfl, rfl, rfl, ?_, ?_, ?_, ?_, ?_⟩
  · intro p hp; cases hp
  · intro hb; cases hb.1
  · intro hb; cases hb.1
  · intro p hp; cases hp
  · intro p hp; cases hp

theorem syncStep_preserves_inv {s : SyncSys} (h : DebInv s) (i : Nat) :
    DebInv (syncStep s i).1 := by
  obtain ⟨tasks, infl⟩ := s
  obtain ⟨A, B, htasks, hdA, hdB, hinf, hbA, hbB, hwA, hwB⟩ := h
  subst htasks
  obtain ⟨dA, phA, tdA⟩ := A
  obtain ⟨dB, phB, tdB⟩ := B
  simp only at hdA hdB
  subst hdA
  subst hdB
  match i with
  | (n + 2) =>
    exact ⟨_, _, rfl, rfl, rfl, hinf, hbA, hbB, hwA, hwB⟩
  | 0 =>
    cases phA with
    | notFired =>
      cases infl with
      | none =>
        refine ⟨⟨true, .running, tdA⟩, ⟨true, phB, tdB⟩, rfl, rfl, rfl, ?_, ?_, ?_, ?_, ?_⟩
        · intro p hp
          exact Or.inl ⟨(Option.some.inj hp).symm, rfl⟩
        · intro _; rfl
        · intro hb; cases hbB hb
        · intro p hp; cases hp
        · intro p hp
          obtain ⟨_, hr⟩ := hwB p hp
          cases hr
      | some q =>
        have hq : q = 1 ∧ phB = .running := by
          rcases hinf q rfl with ⟨_, h⟩ | h
          · cases h
          · exact h
        refine ⟨⟨true, .awaiting q, tdA⟩, ⟨true, phB, tdB⟩, rfl, rfl, rfl, ?_, ?_, ?_, ?_, ?_⟩
        · intro p hp
          obtain rfl := Option.some.inj hp
          exact Or.inr ⟨hq.1, hq.2⟩
        · intro hb; cases hb.1
        · exact hbB
        · intro p hp
          obtain rfl : q = p := by cases hp; rfl
          exact hq
        · intro p hp
          obtain ⟨_, hr⟩ := hwB p hp
          cases hr
    | awaiting p =>
      obtain ⟨rfl, hBr⟩ := hwA p rfl
      subst hBr
      by_cases hfin : taskFinished ⟨true, .running, tdB⟩ = true
      · have htdB : tdB = [] := by
          have := (Bool.and_eq_true _ _).mp hfin
          exact List.isEmpty_iff.mp this.2
        have hstep : syncStep ⟨[⟨true, .awaiting 1, tdA⟩, ⟨true, .running, tdB⟩], infl⟩ 0
            = (⟨[⟨true, .running, tdA⟩, ⟨true, .running, tdB⟩], some 0⟩, []) := by
          simp [syncStep, hfin]
        rw [hstep]
        refine ⟨_, _, rfl, rfl, rfl, ?_, ?_, ?_, ?_, ?_⟩
        · intro p hp
          exact Or.inl ⟨(Option.some.inj hp).symm, rfl⟩
        · intro _; rfl
        · intro hb
          exact absurd htdB hb.2
        · intro p hp; cases hp
        · intro p hp; cases hp
      · have hstep : syncStep ⟨[⟨true, .awaiting 1, tdA⟩, ⟨true, .running, tdB⟩], infl⟩ 0
            = (⟨[⟨true, .awaiting 1, tdA⟩, ⟨true, .running, tdB⟩], infl⟩, []) := by
          simp [syncStep, hfin]
        rw [hstep]
        exact ⟨_, _, rfl, rfl, rfl, hinf, hbA, hbB, hwA, hwB⟩
    | running =>
      cases tdA with
      | nil =>
        exact ⟨_, _, rfl, rfl, rfl, hinf, hbA, hbB, hwA, hwB⟩
      | cons act rest =>
        have hifl : infl = some 0 := hbA ⟨rfl, by simp⟩
        subst hifl
        cases rest with
        | nil =>
          refine ⟨⟨true, .running, []⟩, ⟨true, phB, tdB⟩, rfl, rfl, rfl, ?_, ?_, ?_, ?_, ?_⟩
          · intro p hp; cases hp
          · intro hb; exact absurd rfl hb.2
          · intro hb; cases hbB hb
          · intro p hp; cases hp
          · intro p hp
            obtain ⟨h0, hr⟩ := hwB p hp
            exact ⟨h0, hr⟩
        | cons act2 rest2 =>
          refine ⟨⟨true, .running, act2 :: rest2⟩, ⟨true, phB, tdB⟩, rfl, rfl, rfl,
            ?_, ?_, ?_, ?_, ?_⟩
          · intro p hp
            exact Or.inl ⟨(Option.some.inj hp).symm, rfl⟩
          · intro _; rfl
          · intro hb; cases hbB hb
          · intro p hp; cases hp
          · intro p hp
            exact hwB p hp
  | 1 =>
    cases phB with
    | notFired =>
      cases infl with
      | none =>
        refine ⟨⟨true, phA, tdA⟩, ⟨true, .running, tdB⟩, rfl, rfl, rfl, ?_, ?_, ?_, ?_, ?_⟩
        · intro p hp
          exact Or.inr ⟨(Option.some.inj hp).symm, rfl⟩
        · intro hb; cases hbA hb
        · intro _; rfl
        · intro p hp
          obtain ⟨_, hr⟩ := hwA p hp
          cases hr
        · intro p hp; cases hp
      | some q =>
        have hq : q = 0 ∧ phA = .running := by
          rcases hinf q rfl with h | ⟨_, h⟩
          · exact h
          · cases h
        refine ⟨⟨true, phA, tdA⟩, ⟨true, .awaiting q, tdB⟩, rfl, rfl, rfl, ?_, ?_, ?_, ?_, ?_⟩
        · intro p hp
          obtain rfl := Option.some.inj hp
          exact Or.inl ⟨hq.1, hq.2⟩
        · exact hbA
        · intro hb; cases hb.1
        · intro p hp
          obtain ⟨_, hr⟩ := hwA p hp
          cases hr
        · intro p hp
          obtain rfl : q = p := by cases hp; rfl
          exact hq
    | awaiting p =>
      obtain ⟨rfl, hAr⟩ := hwB p rfl
      subst hAr
      by_cases hfin : taskFinished ⟨true, .running, tdA⟩ = true
      · have htdA : tdA = [] := by
          have := (Bool.and_eq_true _ _).mp hfin
          exact List.isEmpty_iff.mp this.2
        have hstep : syncStep ⟨[⟨true, .running, tdA⟩, ⟨true, .awaiting 0, tdB⟩], infl⟩ 1
            = (⟨[⟨true, .running, tdA⟩, ⟨true, .running, tdB⟩], some 1⟩, []) := by
          simp [syncStep, hfin]
        rw [hstep]
        refine ⟨_, _, rfl, rfl, rfl, ?_, ?_, ?_, ?_, ?_⟩
        · intro p hp
          exact Or.inr ⟨(Option.some.inj hp).symm, rfl⟩
        · intro hb
          exact absurd htdA hb.2
        · intro _; rfl
        · intro p hp; cases hp
        · intro p hp; cases hp
      · have hstep : syncStep ⟨[⟨true, .running, tdA⟩, ⟨true, .awaiting 0, tdB⟩], infl⟩ 1
            = (⟨[⟨true, .running, tdA⟩, ⟨true, .awaiting 0, tdB⟩], infl⟩, []) := by
          simp [syncStep, hfin]
        rw [hstep]
        exact ⟨_, _, rfl, rfl, rfl, hinf, hbA, hbB, hwA, hwB⟩
    | running =>
      cases tdB with
      | nil =>
        exact ⟨_, _, rfl, rfl, rfl, hinf, hbA, hbB, hwA, hwB⟩
      | cons act rest =>
        have hifl : infl = some 1 := hbB ⟨rfl, by simp⟩
        subst hifl
        cases rest with
        | nil =>
          refine ⟨⟨true, phA, tdA⟩, ⟨true, .running, []⟩, rfl, rfl, rfl, ?_, ?_, ?_, ?_, ?_⟩
          · intro p hp; cases hp
          · intro hb; cases hbA hb
          · intro hb; exact absurd rfl hb.2
          · intro p hp
            exact hwA p hp
          · intro p hp; cases hp
        | cons act2 rest2 =>
          refine ⟨⟨true, phA, tdA⟩, ⟨true, .running, act2 :: rest2⟩, rfl, rfl, rfl,
            ?_, ?_, ?_, ?_, ?_⟩
          · intro p hp
            exact Or.inr ⟨(Option.some.inj hp).symm, rfl⟩
          · intro hb; cases hbA hb
          · intro _; rfl
          · intro p hp
            exact hwA p hp
          · intro p hp; cases hp

/-- Task `k` can still emit actions in the future only if it has actions
left. -/
def canEmitLater (s : SyncSys) (k : Nat) : Prop :=
  ∃ t, s.tasks.get? k = some t ∧ t.todo ≠ []

theorem canEmitLater_two {X Y : SyncTask} {infl : Option Nat} {k : Nat} :
    canEmitLater ⟨[X, Y], infl⟩ k ↔ (k = 0 ∧ X.todo ≠ []) ∨ (k = 1 ∧ Y.todo ≠ []) := by
  constructor
  · rintro ⟨t, hget, hne⟩
    match k with
    | 0 =>
      obtain rfl := Option.some.inj hget
      exact Or.inl ⟨rfl, hne⟩
    | 1 =>
      obtain rfl := Option.some.inj hget
      exact Or.inr ⟨rfl, hne⟩
    | (n + 2) =>
      exact absurd hget (by simp)
  · rintro (⟨rfl, h⟩ | ⟨rfl, h⟩)
    · exact ⟨X, rfl, h⟩
    · exact ⟨Y, rfl, h⟩

/-- Each step of a two-task debounced system either emits nothing — then
every still-emittable task was emittable before, and a busy registered task
stays busy and registered — or emits one action of the registered busy task
`i`, leaving `i` registered and busy while actions remain and unable to emit
ever again when none do. -/
theorem syncStep_char (s : SyncSys) (i : Nat) (h : DebInv s) :
    ((syncStep s i).2 = [] ∧
      (∀ k, canEmitLater (syncStep s i).1 k → canEmitLater s k) ∧
      (∀ p t, s.inflight = some p → s.tasks.get? p = some t → runningBusy t →
        ∃ t', (syncStep s i).1.inflight = some p ∧
          (syncStep s i).1.tasks.get? p = some t' ∧ runningBusy t')) ∨
    (∃ (act : SyncAct) (rest' : List SyncAct), (i = 0 ∨ i = 1) ∧ s.inflight = some i ∧
      canEmitLater s i ∧
      (syncStep s i).2 = [(i, act)] ∧
      (∀ k, canEmitLater (syncStep s i).1 k → canEmitLater s k) ∧
      (rest' = [] → ¬ canEmitLater (syncStep s i).1 i) ∧
      (rest' ≠ [] → ∃ t', (syncStep s i).1.inflight = some i ∧
        (syncStep s i).1.tasks.get? i = some t' ∧ runningBusy t')) := by
  obtain ⟨tasks, infl⟩ := s
  obtain ⟨A, B, htasks, hdA, hdB, hinf, hbA, hbB, hwA, hwB⟩ := h
  subst htasks
  obtain ⟨dA, phA, tdA⟩ := A
  obtain ⟨dB, phB, tdB⟩ := B
  simp only at hdA hdB
  subst hdA
  subst hdB
  match i with
  | (n + 2) =>
    exact Or.inl ⟨rfl, fun k h => h, fun p t h1 h2 h3 => ⟨t, h1, h2, h3⟩⟩
  | 0 =>
    cases phA with
    | notFired =>
      cases infl with
      | none =>
        have hstep : syncStep ⟨[⟨true, .notFired, tdA⟩, ⟨true, phB, tdB⟩], none⟩ 0
            = (⟨[⟨true, .running, tdA⟩, ⟨true, phB, tdB⟩], some 0⟩, []) := rfl
        refine Or.inl ⟨rfl, ?_, ?_⟩
        · intro k hk
          rw [hstep] at hk
          rw [canEmitLater_two] at hk ⊢
          exact hk
        · intro p t h1 _ _
          cases h1
      | some q =>
        have hstep : syncStep ⟨[⟨true, .notFired, tdA⟩, ⟨true, phB, tdB⟩], some q⟩ 0
            = (⟨[⟨true, .awaiting q, tdA⟩, ⟨true, phB, tdB⟩], some q⟩, []) := rfl
        refine Or.inl ⟨rfl, ?_, ?_⟩
        · intro k hk
          rw [hstep] at hk
          rw [canEmitLater_two] at hk ⊢
          exact hk
        · intro p t h1 h2 h3
          obtain rfl : q = p := Option.some.inj h1
          match q, h2, h3 with
          | 0, h2, h3 =>
            have h2' : some (⟨true, .notFired, tdA⟩ : SyncTask) = some t := h2
            obtain rfl := Option.some.inj h2'
            cases h3.1
          | 1, h2, h3 =>
            have h2' : some (⟨true, phB, tdB⟩ : SyncTask) = some t := h2
            obtain rfl := Option.some.inj h2'
            exact ⟨_, rfl, rfl, h3⟩
          | (n + 2), h2, h3 =>
            exact absurd h2 (by simp)
    | awaiting p =>
      obtain ⟨rfl, hBr⟩ := hwA p rfl
      subst hBr
      by_cases hfin : taskFinished ⟨true, .running, tdB⟩ = true
      · have htdB : tdB = [] := by
          have := (Bool.and_eq_true _ _).mp hfin
          exact List.isEmpty_iff.mp this.2
        have hstep : syncStep ⟨[⟨true, .awaiting 1, tdA⟩, ⟨true, .running, tdB⟩], infl⟩ 0
            = (⟨[⟨true, .running, tdA⟩, ⟨true, .running, tdB⟩], some 0⟩, []) := by
          simp [syncStep, hfin]
        refine Or.inl ⟨by rw [hstep], ?_, ?_⟩
        · intro k hk
          rw [hstep] at hk
          rw [canEmitLater_two] at hk ⊢
          exact hk
        · intro p t h1 h2 h3
          have h1' : infl = some p := h1
          rcases hinf p h1' with ⟨_, hr⟩ | ⟨rfl, _⟩
          · cases hr
          · have h2' : some (⟨true, .running, tdB⟩ : SyncTask) = some t := h2
            obtain rfl := Option.some.inj h2'
            exact absurd htdB h3.2
      · have hstep : syncStep ⟨[⟨true, .awaiting 1, tdA⟩, ⟨true, .running, tdB⟩], infl⟩ 0
            = (⟨[⟨true, .awaiting 1, tdA⟩, ⟨true, .running, tdB⟩], infl⟩, []) := by
          simp [syncStep, hfin]
        refine Or.inl ⟨by rw [hstep], ?_, ?_⟩
        · intro k hk
          rw [hstep] at hk
          exact hk
        · intro p t h1 h2 h3
          rw [hstep]
          exact ⟨t, h1, h2, h3⟩
    | running =>
      cases tdA with
      | nil =>
        exact Or.inl ⟨rfl, fun k h => h, fun p t h1 h2 h3 => ⟨t, h1, h2, h3⟩⟩
      | cons act rest =>
        have hifl : infl = some 0 := hbA ⟨rfl, by simp⟩
        subst hifl
        refine Or.inr ⟨act, rest, Or.inl rfl, rfl, ⟨_, rfl, by simp⟩, ?_, ?_, ?_, ?_⟩
        · cases rest <;> rfl
        · intro k hk
          cases rest with
          | nil =>
            have hstep : syncStep
                ⟨[⟨true, .running, [act]⟩, ⟨true, phB, tdB⟩], some 0⟩ 0
                = (⟨[⟨true, .running, []⟩, ⟨true, phB, tdB⟩], none⟩, [(0, act)]) := rfl
            rw [hstep] at hk
            rw [canEmitLater_two] at hk ⊢
            rcases hk with ⟨rfl, hne⟩ | hk
            · exact absurd rfl hne
            · exact Or.inr hk
          | cons a2 r2 =>
            have hstep : syncStep
                ⟨[⟨true, .running, act :: a2 :: r2⟩, ⟨true, phB, tdB⟩], some 0⟩ 0
                = (⟨[⟨true, .running, a2 :: r2⟩, ⟨true, phB, tdB⟩], some 0⟩,
                    [(0, act)]) := rfl
            rw [hstep] at hk
            rw [canEmitLater_two] at hk ⊢
            rcases hk with ⟨rfl, _⟩ | hk
            · exact Or.inl ⟨rfl, by simp⟩
            · exact Or.inr hk
        · intro hre
          subst hre
          have hstep : syncStep
              ⟨[⟨true, .running, [act]⟩, ⟨true, phB, tdB⟩], some 0⟩ 0
              = (⟨[⟨true, .running, []⟩, ⟨true, phB, tdB⟩], none⟩, [(0, act)]) := rfl
          rw [hstep, canEmitLater_two]
          rintro (⟨_, hne⟩ | ⟨h01, _⟩)
          · exact hne rfl
          · cases h01
        · intro hre
          cases rest with
          | nil => exact absurd rfl hre
          | cons a2 r2 =>
            exact ⟨⟨true, .running, a2 :: r2⟩, rfl, rfl, rfl, by simp⟩
  | 1 =>
    cases phB with
    | notFired =>
      cases infl with
      | none =>
        have hstep : syncStep ⟨[⟨true, phA, tdA⟩, ⟨true, .notFired, tdB⟩], none⟩ 1
            = (⟨[⟨true, phA, tdA⟩, ⟨true, .running, tdB⟩], some 1⟩, []) := rfl
        refine Or.inl ⟨rfl, ?_, ?_⟩
        · intro k hk
          rw [hstep] at hk
          rw [canEmitLater_two] at hk ⊢
          exact hk
        · intro p t h1 _ _
          cases h1
      | some q =>
        have hstep : syncStep ⟨[⟨true, phA, tdA⟩, ⟨true, .notFired, tdB⟩], some q⟩ 1
            = (⟨[⟨true, phA, tdA⟩, ⟨true, .awaiting q, tdB⟩], some q⟩, []) := rfl
        refine Or.inl ⟨rfl, ?_, ?_⟩
        · intro k hk
          rw [hstep] at hk
          rw [canEmitLater_two] at hk ⊢
          exact hk
        · intro p t h1 h2 h3
          obtain rfl : q = p := Option.some.inj h1
          match q, h2, h3 with
          | 0, h2, h3 =>
            have h2' : some (⟨true, phA, tdA⟩ : SyncTask) = some t := h2
            obtain rfl := Option.some.inj h2'
            exact ⟨_, rfl, rfl, h3⟩
          | 1, h2, h3 =>
            have h2' : some (⟨true, .notFired, tdB⟩ : SyncTask) = some t := h2
            obtain rfl := Option.some.inj h2'
            cases h3.1
          | (n + 2), h2, h3 =>
            exact absurd h2 (by simp)
    | awaiting p =>
      obtain ⟨rfl, hAr⟩ := hwB p rfl
      subst hAr
      by_cases hfin : taskFinished ⟨true, .running, tdA⟩ = true
      · have htdA : tdA = [] := by
          have := (Bool.and_eq_true _ _).mp hfin
          exact List.isEmpty_iff.mp this.2
        have hstep : syncStep ⟨[⟨true, .running, tdA⟩, ⟨true, .awaiting 0, tdB⟩], infl⟩ 1
            = (⟨[⟨true, .running, tdA⟩, ⟨true, .running, tdB⟩], some 1⟩, []) := by
          simp [syncStep, hfin]
        refine Or.inl ⟨by rw [hstep], ?_, ?_⟩
        · intro k hk
          rw [hstep] at hk
          rw [canEmitLater_two] at hk ⊢
          exact hk
        · intro p t h1 h2 h3
          have h1' : infl = some p := h1
          rcases hinf p h1' with ⟨rfl, _⟩ | ⟨_, hr⟩
          · have h2' : some (⟨true, .running, tdA⟩ : SyncTask) = some t := h2
            obtain rfl := Option.some.inj h2'
            exact absurd htdA h3.2
          · cases hr
      · have hstep : syncStep ⟨[⟨true, .running, tdA⟩, ⟨true, .awaiting 0, tdB⟩], infl⟩ 1
            = (⟨[⟨true, .running, tdA⟩, ⟨true, .awaiting 0, tdB⟩], infl⟩, []) := by
          simp [syncStep, hfin]
        refine Or.inl ⟨by rw [hstep], ?_, ?_⟩
        · intro k hk
          rw [hstep] at hk
          exact hk
        · intro p t h1 h2 h3
          rw [hstep]
          exact ⟨t, h1, h2, h3⟩
    | running =>
      cases tdB with
      | nil =>
        exact Or.inl ⟨rfl, fun k h => h, fun p t h1 h2 h3 => ⟨t, h1, h2, h3⟩⟩
      | cons act rest =>
        have hifl : infl = some 1 := hbB ⟨rfl, by simp⟩
        subst hifl
        refine Or.inr ⟨act, rest, Or.inr rfl, rfl, ⟨_, rfl, by simp⟩, ?_, ?_, ?_, ?_⟩
        · cases rest <;> rfl
        · intro k hk
          cases rest with
          | nil =>
            have hstep : syncStep
                ⟨[⟨true, phA, tdA⟩, ⟨true, .running, [act]⟩], some 1⟩ 1
                = (⟨[⟨true, phA, tdA⟩, ⟨true, .running, []⟩], none⟩, [(1, act)]) := rfl
            rw [hstep] at hk
            rw [canEmitLater_two] at hk ⊢
            rcases hk with hk | ⟨rfl, hne⟩
            · exact Or.inl hk
            · exact absurd rfl hne
          | cons a2 r2 =>
            have hstep : syncStep
                ⟨[⟨true, phA, tdA⟩, ⟨true, .running, act :: a2 :: r2⟩], some 1⟩ 1
                = (⟨[⟨true, phA, tdA⟩, ⟨true, .running, a2 :: r2⟩], some 1⟩,
                    [(1, act)]) := rfl
            rw [hstep] at hk
            rw [canEmitLater_two] at hk ⊢
            rcases hk with hk | ⟨rfl, _⟩
            · exact Or.inl hk
            · exact Or.inr ⟨rfl, by simp⟩
        · intro hre
          subst hre
          have hstep : syncStep
              ⟨[⟨true, phA, tdA⟩, ⟨true, .running, [act]⟩], some 1⟩ 1
              = (⟨[⟨true, phA, tdA⟩, ⟨true, .running, []⟩], none⟩, [(1, act)]) := rfl
          rw [hstep, canEmitLater_two]
          rintro (⟨h01, _⟩ | ⟨_, hne⟩)
          · cases h01
          · exact hne rfl
        · intro hre
          cases rest with
          | nil => exact absurd rfl hre
          | cons a2 r2 =>
            exact ⟨⟨true, .running, a2 :: r2⟩, rfl, rfl, rfl, by simp⟩

theorem tagChanges_replicate (a i : Nat) : tagChanges (List.replicate a i) = 0 := by
  induction a with
  | zero => rfl
  | succ a ih =>
    cases a with
    | zero => rfl
    | succ b =>
      show (if i = i then 0 else 1) + tagChanges (i :: List.replicate b i) = 0
      rw [if_pos rfl]
      show 0 + tagChanges (List.replicate (b + 1) i) = 0
      rw [ih]

theorem tagChanges_append_le (xs ys : List Nat) :
    tagChanges (xs ++ ys) ≤ tagChanges xs + 1 + tagChanges ys := by
  induction xs with
  | nil =>
    show tagChanges ys ≤ tagChanges [] + 1 + tagChanges ys
    show tagChanges ys ≤ 0 + 1 + tagChanges ys
    omega
  | cons x xs ih =>
    cases xs with
    | nil =>
      cases ys with
      | nil => show (0 : Nat) ≤ 0 + 1 + 0; omega
      | cons y t =>
        show (if x = y then 0 else 1) + tagChanges (y :: t)
          ≤ tagChanges [x] + 1 + tagChanges (y :: t)
        show (if x = y then 0 else 1) + tagChanges (y :: t)
          ≤ 0 + 1 + tagChanges (y :: t)
        have hc : (if x = y then 0 else 1) ≤ 1 := by
          by_cases h : x = y <;> simp [h]
        omega
    | cons x2 xs2 =>
      show (if x = x2 then 0 else 1) + tagChanges ((x2 :: xs2) ++ ys)
        ≤ ((if x = x2 then 0 else 1) + tagChanges (x2 :: xs2)) + 1 + tagChanges ys
      have h2 := ih
      omega

theorem tagChanges_two_blocks (i j a b : Nat) :
    tagChanges (List.replicate a i ++ List.replicate b j) ≤ 1 := by
  have h := tagChanges_append_le (List.replicate a i) (List.replicate b j)
  rw [tagChanges_replicate, tagChanges_replicate] at h
  omega

theorem canEmitLater_lt_two {s : SyncSys} {A B : SyncTask} {k : Nat}
    (htasks : s.tasks = [A, B]) (h : canEmitLater s k) : k = 0 ∨ k = 1 := by
  obtain ⟨t, hget, _⟩ := h
  rw [htasks] at hget
  match k with
  | 0 => exact Or.inl rfl
  | 1 => exact Or.inr rfl
  | (n + 2) => exact absurd hget (by simp)

/-- In a two-task debounced system, any trace is two blocks: one task's
actions, then the other's (either block possibly empty); moreover only tasks
with actions left appear in the trace, and a registered busy task owns the
first block. -/
theorem debounced_run_blocks (sched : List Nat) :
    ∀ s : SyncSys, DebInv s →
      (∃ i j a b, syncTags sched s = List.replicate a i ++ List.replicate b j) ∧
      (∀ k ∈ syncTags sched s, canEmitLater s k) ∧
      (∀ p t, s.inflight = some p → s.tasks.get? p = some t → runningBusy t →
        ∃ j a b, syncTags sched s = List.replicate a p ++ List.replicate b j) := by
  induction sched with
  | nil =>
    intro s _
    refine ⟨⟨0, 0, 0, 0, by simp [syncTags, syncRun]⟩, ?_, ?_⟩
    · intro k hk
      simp [syncTags, syncRun] at hk
    · intro p t _ _ _
      exact ⟨0, 0, 0, by simp [syncTags, syncRun]⟩
  | cons i rest ih =>
    intro s hInv
    have hInv' := syncStep_preserves_inv hInv i
    obtain ⟨hBlocks', hCan', hInfl'⟩ := ih (syncStep s i).1 hInv'
    have htags : syncTags (i :: rest) s
        = ((syncStep s i).2).map Prod.fst ++ syncTags rest (syncStep s i).1 := by
      simp [syncTags, syncRun]
    rcases syncStep_char s i hInv with ⟨hout, hcan, hbusy⟩ |
      ⟨act, rest', hi01, hifl, hcani, hout, hcan, hdone, hmore⟩
    · have htags' : syncTags (i :: rest) s = syncTags rest (syncStep s i).1 := by
        rw [htags, hout]
        rfl
      refine ⟨?_, ?_, ?_⟩
      · rw [htags']
        exact hBlocks'
      · intro k hk
        rw [htags'] at hk
        exact hcan k (hCan' k hk)
      · intro p t h1 h2 h3
        obtain ⟨t', h1', h2', h3'⟩ := hbusy p t h1 h2 h3
        rw [htags']
        exact hInfl' p t' h1' h2' h3'
    · have htags' : syncTags (i :: rest) s = i :: syncTags rest (syncStep s i).1 := by
        rw [htags, hout]
        rfl
      have hblock : ∃ j a b,
          syncTags (i :: rest) s = List.replicate a i ++ List.replicate b j := by
        by_cases hre : rest' = []
        · have hnoti : ¬ canEmitLater (syncStep s i).1 i := hdone hre
          obtain ⟨A', B', htasks', _⟩ := hInv'
          have hall : ∀ k ∈ syncTags rest (syncStep s i).1, k = 1 - i := by
            intro k hk
            have hck := hCan' k hk
            have hk01 := canEmitLater_lt_two htasks' hck
            have hkne : k ≠ i := by
              intro hkeq
              exact hnoti (hkeq ▸ hck)
            rcases hi01 with rfl | rfl
            · rcases hk01 with rfl | rfl
              · exact absurd rfl hkne
              · rfl
            · rcases hk01 with rfl | rfl
              · rfl
              · exact absurd rfl hkne
          obtain ⟨m, hm⟩ : ∃ m, syncTags rest (syncStep s i).1
              = List.replicate m (1 - i) :=
            ⟨_, List.eq_replicate_of_mem hall⟩
          refine ⟨1 - i, 1, m, ?_⟩
          rw [htags', hm]
          rfl
        · obtain ⟨t', h1', h2', h3'⟩ := hmore hre
          obtain ⟨j, a, b, hform⟩ := hInfl' i t' h1' h2' h3'
          refine ⟨j, a + 1, b, ?_⟩
          rw [htags', hform]
          rfl
      refine ⟨?_, ?_, ?_⟩
      · obtain ⟨j, a, b, h⟩ := hblock
        exact ⟨i, j, a, b, h⟩
      · intro k hk
        rw [htags'] at hk
        rcases List.mem_cons.mp hk with rfl | hk'
        · exact hcani
        · exact hcan k (hCan' k hk')
      · intro p t h1 h2 h3
        obtain rfl : i = p := Option.some.inj (hifl ▸ h1)
        exact hblock

/-- C6 (amended): two sync cycles entered through the debounced
`triggerSync` path never interleave — any schedule produces a trace whose
task tags form at most two blocks (at most one switch), i.e. the second
cycle's actions all come after the first finishes.  (The counterexample
shows this fails for the direct `setupAutoSync` trigger paths.) -/
theorem c6_debounced_single_flight (t0 t1 : List SyncAct) (sched : List Nat) :
    tagChanges (syncTags sched (twoDebouncedSys t0 t1)) ≤ 1 := by
  obtain ⟨⟨i, j, a, b, hform⟩, _, _⟩ :=
    debounced_run_blocks sched (twoDebouncedSys t0 t1) (debInv_init t0 t1)
  rw [hform]
  exact tagChanges_two_blocks i j a b

end Tombstone
